import Mathlib

/-!
# Template locator and front-matter parser of `pkg/githubtemplate`

A shallow embedding of `pkg/githubtemplate/github_template.go` together with the
properties of its four operations (`findNonLegacy`, `findLegacy`, `extractName`,
`extractContents`) and of the front-matter detector `detectFrontmatter`.

Go strings and byte slices are sequences of bytes; both are embedded as lists of
natural numbers (each element a byte value).  The file system is an explicit
parameter: a pair of functions answering `ioutil.ReadDir` and `ioutil.ReadFile`.
-/

namespace GithubTemplate

/-! ## Strings and bytes -/

/-- A Go `string` or `[]byte`: a sequence of byte values. -/
abbrev GoString := List Nat

/-- The bytes of an ASCII literal (for ASCII text this is its UTF-8 encoding). -/
def str (s : String) : GoString := s.data.map Char.toNat

/-! ## The regular expression `yamlPattern`

`regexp.MustCompile` with the flags and operators used by the pattern
`(?m)^---\r?\n(\s*\r?\n)?`: a backtracking matcher with the leftmost-first
preference order of Go's `regexp` package.  Every atom of the pattern is ASCII, so
matching byte by byte agrees with matching rune by rune. -/

/-- Syntax of the regular-expression fragment used by `yamlPattern`. -/
inductive Regex where
  /-- The anchor `^` under the `m` flag: at the start of the text or right after a line feed. -/
  | bol : Regex
  /-- A literal byte. -/
  | byte : Nat → Regex
  /-- The class `\s`, which in Go is `[\t\n\f\r ]`. -/
  | space : Regex
  /-- Concatenation. -/
  | seq : Regex → Regex → Regex
  /-- Greedy `r?`. -/
  | opt : Regex → Regex
  /-- Greedy `r*`. -/
  | star : Regex → Regex

/-- Membership in the Perl class `\s` of Go's `regexp/syntax`: `\t`, `\n`, `\f`, `\r` and space. -/
def isSpace (b : Nat) : Bool :=
  b == 9 || b == 10 || b == 12 || b == 13 || b == 32

/-- Greedy iteration: the end offsets reachable from offset `i` by repeating `f`, the
longest repetitions first and the empty repetition last.  An iteration that consumes
nothing is not repeated. -/
def starEnds (f : Nat → List Nat) : Nat → Nat → List Nat
  | 0, i => [i]
  | fuel + 1, i => ((f i).filter (fun j => i < j)).flatMap (starEnds f fuel) ++ [i]

/-- All end offsets of matches of `r` in `cs` that start at offset `i`, in the order in
which a backtracking search finds them. -/
def ends (cs : List Nat) : Regex → Nat → List Nat
  | .bol, i => if i = 0 ∨ cs[i - 1]? = some 10 then [i] else []
  | .byte b, i => if cs[i]? = some b then [i + 1] else []
  | .space, i => if (cs[i]?).any isSpace then [i + 1] else []
  | .seq r s, i => (ends cs r i).flatMap (ends cs s)
  | .opt r, i => ends cs r i ++ [i]
  | .star r, i => starEnds (ends cs r) (cs.length + 1 - i) i

/-- The preferred match of `r` starting exactly at offset `i`, as its end offset. -/
def matchAt (r : Regex) (cs : List Nat) (i : Nat) : Option Nat :=
  (ends cs r i).head?

/-- Leftmost match of `r` in `cs` starting at offset `pos` or later, searching the
`n` offsets `pos`, `pos + 1`, ..., `pos + n - 1`. -/
def searchFrom (r : Regex) (cs : List Nat) : Nat → Nat → Option (Nat × Nat)
  | 0, _ => none
  | n + 1, pos =>
    match matchAt r cs pos with
    | some e => some (pos, e)
    | none => searchFrom r cs n (pos + 1)

/-- The loop of `Regexp.allMatches`: successive non-overlapping matches, at most
`n` of them.  `fuel` bounds the number of iterations; every iteration moves `pos`
forward, so `len(cs) + 2` iterations always suffice.  After an empty match the search
resumes one position further and an empty match adjacent to the previous match is
not delivered.  (Go resumes one rune further; a match of `yamlPattern` is never empty, so
that branch is not taken for it.) -/
def allMatches (r : Regex) (cs : List Nat) :
    Nat → Nat → Nat → Option Nat → List (Nat × Nat)
  | 0, _, _, _ => []
  | fuel + 1, n, pos, prevMatchEnd =>
    if n = 0 ∨ cs.length < pos then []
    else
      match searchFrom r cs (cs.length + 1 - pos) pos with
      | none => []
      | some (s, e) =>
        if e = pos then
          if some s = prevMatchEnd then
            allMatches r cs fuel n (pos + 1) (some e)
          else
            (s, e) :: allMatches r cs fuel (n - 1) (pos + 1) (some e)
        else
          (s, e) :: allMatches r cs fuel (n - 1) e (some e)

/-- Go's `Regexp.FindAllIndex(cs, n)` for `n ≥ 0`: the first `n` successive matches of `r` in
`cs` as pairs (start offset, end offset). -/
def findAllIndex (r : Regex) (cs : List Nat) (n : Nat) : List (Nat × Nat) :=
  allMatches r cs (cs.length + 2) n 0 none

/-- The optional group `(\s*\r?\n)?` of `yamlPattern`. -/
def yamlBlank : Regex :=
  .opt (.seq (.star .space) (.seq (.opt (.byte 13)) (.byte 10)))

/-- The pattern `(?m)^---\r?\n(\s*\r?\n)?`. -/
def yamlPattern : Regex :=
  .seq .bol (.seq (.byte 45) (.seq (.byte 45) (.seq (.byte 45)
    (.seq (.opt (.byte 13)) (.seq (.byte 10) yamlBlank)))))

/-- Embedding of `detectFrontmatter`: the start of the first and the end of the second
match of `yamlPattern`, or `(-1, -1)` when there are fewer than two matches. -/
def detectFrontmatter (cs : List Nat) : Int × Int :=
  match findAllIndex yamlPattern cs 2 with
  | m0 :: m1 :: _ => ((m0.1 : Int), (m1.2 : Int))
  | _ => (-1, -1)

/-! ## Library functions used by the finders -/

/-- The elements of a path between its slashes (byte 47); `splitSlash "a//b" = ["a", "", "b"]`. -/
def splitSlash : GoString → List GoString
  | [] => [[]]
  | b :: bs =>
    if b = 47 then [] :: splitSlash bs
    else
      match splitSlash bs with
      | [] => [[b]]
      | e :: es => (b :: e) :: es

/-- One step of the loop of `path.Clean`, `out` holding the elements written so far and
`e` being the next element of the path: empty and `.` elements are dropped, `..`
removes the last element written unless there is none or it is itself `..`, in which
case `..` is written when the path is not rooted and dropped when it is; any other
element is written. -/
def cleanStep (rooted : Bool) (out : List GoString) (e : GoString) : List GoString :=
  if e = [] ∨ e = [46] then out
  else if e = [46, 46] then
    match out.getLast? with
    | some t =>
      if t ≠ [46, 46] then out.dropLast
      else if rooted then out
      else out ++ [e]
    | none => if rooted then out else out ++ [e]
  else out ++ [e]

/-- The loop of `path.Clean` over the elements of a path. -/
def cleanElems (rooted : Bool) (es : List GoString) (out : List GoString) : List GoString :=
  es.foldl (cleanStep rooted) out

/-- Go's `path.Clean`: the shortest path name equivalent to `path` by lexical processing.
Multiple slashes become one, `.` elements are eliminated, an inner `..` element is
eliminated together with the element before it, `..` elements that begin a rooted path
are eliminated, and the empty result is written `.`. -/
def pathClean (path : GoString) : GoString :=
  if path = [] then [46]
  else
    let rooted := path.head? = some 47
    let out := cleanElems rooted (splitSlash path) []
    if rooted then 47 :: [47].intercalate out
    else if out = [] then [46]
    else [47].intercalate out

/-- Go's `path.Join`: the non-empty elements joined with slashes, then cleaned; the
empty string when every element is empty. -/
def pathJoin (elem : List GoString) : GoString :=
  match elem.filter (fun e => e ≠ []) with
  | [] => []
  | es => pathClean ([47].intercalate es)

/-- Go's `path.Base`: the last element of a path, trailing slashes removed first. -/
def pathBase (path : GoString) : GoString :=
  if path = [] then [46]
  else
    let stripped := (path.reverse.dropWhile (fun b => b = 47)).reverse
    let last := (stripped.reverse.takeWhile (fun b => b ≠ 47)).reverse
    if last = [] then [47] else last

/-- Go's `strings.HasSuffix`. -/
def hasSuffix (s suffix : GoString) : Bool :=
  suffix.length ≤ s.length && s.drop (s.length - suffix.length) == suffix

/-- Go's `<` on strings: byte-wise lexicographic order. -/
def strLess : GoString → GoString → Bool
  | [], [] => false
  | [], _ :: _ => true
  | _ :: _, [] => false
  | a :: as, b :: bs => a < b || (a == b && strLess as bs)

/-- Go's `<=` on strings. -/
def strLe (s t : GoString) : Prop := strLess t s = false

instance : DecidableRel strLe := fun s t => inferInstanceAs (Decidable (strLess t s = false))

/-- Go's `sort.Strings`: the strings in increasing order.  The order is total and equal
strings are indistinguishable, so every sorting algorithm returns this list. -/
def sortStrings (x : List GoString) : List GoString :=
  x.insertionSort strLe

/-- ASCII case folding of one byte. -/
def asciiLower (b : Nat) : Nat :=
  if 65 ≤ b ∧ b ≤ 90 then b + 32 else b

/-- The restriction of `strings.EqualFold` to ASCII strings: equality up to the case of
the letters `A`-`Z`. -/
def asciiEqualFold (s t : GoString) : Bool :=
  s.map asciiLower == t.map asciiLower

/-! ## The file system -/

/-- The errors `ioutil.ReadDir` and `ioutil.ReadFile` can report. -/
inductive ReadError where
  | notExist
  | permission
  | other
  deriving DecidableEq, Repr

deriving instance DecidableEq for Except

/-- The part of `os.FileInfo` the finders look at. -/
structure FileInfo where
  name : GoString
  isDir : Bool
  deriving DecidableEq, Repr

/-- The file system as the package sees it: the answers of `ioutil.ReadDir` (the
entries of a directory, which Go returns sorted by file name) and `ioutil.ReadFile`. -/
structure FileSystem where
  readDir : GoString → Except ReadError (List FileInfo)
  readFile : GoString → Except ReadError (List Nat)

/-! ## The finders -/

/-- The list `candidateDirs` of `findNonLegacy` and `findLegacy`. -/
def candidateDirs (rootDir : GoString) : List GoString :=
  [pathJoin [rootDir, str ".github"], rootDir, pathJoin [rootDir, str "docs"]]

/-- The loop over `templates` in `findNonLegacy`: appends the path of every entry whose
name ends in `.md`. -/
def collectTemplates (dir fileName : GoString) :
    List FileInfo → List GoString → List GoString
  | [], results => results
  | tf :: templates, results =>
    if hasSuffix tf.name (str ".md") then
      collectTemplates dir fileName templates (results ++ [pathJoin [dir, fileName, tf.name]])
    else collectTemplates dir fileName templates results

/-- The loop over `files` in `findNonLegacy`.  Returns the updated `results` and whether
`break mainLoop` was executed. -/
def scanFiles (fs : FileSystem) (equalFold : GoString → GoString → Bool)
    (dir name : GoString) : List FileInfo → List GoString → List GoString × Bool
  | [], results => (results, false)
  | file :: files, results =>
    if equalFold file.name name && file.isDir then
      match fs.readDir (pathJoin [dir, file.name]) with
      | .error _ => (results, false)
      | .ok templates =>
        let results := collectTemplates dir file.name templates results
        if results.length > 0 then (results, true) else (results, false)
    else scanFiles fs equalFold dir name files results

/-- The loop `mainLoop` of `findNonLegacy` over the candidate directories. -/
def mainLoop (fs : FileSystem) (equalFold : GoString → GoString → Bool)
    (name : GoString) : List GoString → List GoString → List GoString
  | [], results => results
  | dir :: dirs, results =>
    match fs.readDir dir with
    | .error _ => mainLoop fs equalFold name dirs results
    | .ok files =>
      match scanFiles fs equalFold dir name files results with
      | (results, true) => results
      | (results, false) => mainLoop fs equalFold name dirs results

/-- Embedding of `findNonLegacy`.  `equalFold` stands for `strings.EqualFold`, whose
Unicode case-folding tables belong to the Go library. -/
def findNonLegacy (fs : FileSystem) (equalFold : GoString → GoString → Bool)
    (rootDir name : GoString) : List GoString :=
  sortStrings (mainLoop fs equalFold name (candidateDirs rootDir) [])

/-- The loop over `files` in `findLegacy`. -/
def legacyFiles (equalFold : GoString → GoString → Bool) (dir name : GoString) :
    List FileInfo → Option GoString
  | [] => none
  | file :: files =>
    if equalFold file.name (name ++ str ".md") then some (pathJoin [dir, file.name])
    else legacyFiles equalFold dir name files

/-- The loop over the candidate directories in `findLegacy`. -/
def legacyDirs (fs : FileSystem) (equalFold : GoString → GoString → Bool)
    (name : GoString) : List GoString → Option GoString
  | [] => none
  | dir :: dirs =>
    match fs.readDir dir with
    | .error _ => legacyDirs fs equalFold name dirs
    | .ok files =>
      match legacyFiles equalFold dir name files with
      | some result => some result
      | none => legacyDirs fs equalFold name dirs

/-- Embedding of `findLegacy`; `none` is the nil pointer. -/
def findLegacy (fs : FileSystem) (equalFold : GoString → GoString → Bool)
    (rootDir name : GoString) : Option GoString :=
  legacyDirs fs equalFold name (candidateDirs rootDir)

/-! ## The extractors -/

/-- Embedding of `extractName`.  `yamlUnmarshal` stands for `yaml.Unmarshal` into a
struct with the single field `Name`: `none` when it reports an error, otherwise the
value of the field (empty when the mapping has no such key).  When the file cannot be
read the result does not depend on `contents`, taken to be empty here. -/
def extractName (fs : FileSystem) (yamlUnmarshal : List Nat → Option GoString)
    (filePath : GoString) : GoString :=
  let read := fs.readFile filePath
  let contents : List Nat := match read with
    | .ok cs => cs
    | .error _ => []
  let frontmatterBoundaries := detectFrontmatter contents
  if read.toBool ∧ frontmatterBoundaries.1 = 0 then
    match yamlUnmarshal (contents.take frontmatterBoundaries.2.toNat) with
    | some templateName => if templateName ≠ [] then templateName else pathBase filePath
    | none => pathBase filePath
  else pathBase filePath

/-- Embedding of `extractContents`. -/
def extractContents (fs : FileSystem) (filePath : GoString) : List Nat :=
  match fs.readFile filePath with
  | .error _ => []
  | .ok contents =>
    let frontmatterBoundaries := detectFrontmatter contents
    if frontmatterBoundaries.1 = 0 then contents.drop frontmatterBoundaries.2.toNat
    else contents

/-! ## Notions used to state the properties of the front-matter detector -/

/-- A delimiter line starts at offset `i` of `cs`: `i` is the start of the text or
follows a line feed, and the bytes from `i` on are `---` and then a line feed or a
carriage return and a line feed. -/
def isDelimiterAt (cs : List Nat) (i : Nat) : Bool :=
  (i == 0 || cs[i - 1]? == some 10) &&
  (cs[i]? == some 45 && cs[i + 1]? == some 45 && cs[i + 2]? == some 45) &&
  (cs[i + 3]? == some 10 || (cs[i + 3]? == some 13 && cs[i + 4]? == some 10))

/-- The start offsets of the delimiter lines of `cs`, in increasing order. -/
def delimiterLines (cs : List Nat) : List Nat :=
  (List.range cs.length).filter (isDelimiterAt cs)

/-- The length of the delimiter line at offset `i`, its line terminator included. -/
def lineLength (cs : List Nat) (i : Nat) : Nat :=
  if cs[i + 3]? = some 13 then 5 else 4

/-- The number of bytes of `bs` up to and including its last line feed, `0` when it
has none. -/
def throughLastNewline : List Nat → Nat
  | [] => 0
  | b :: bs =>
    if throughLastNewline bs ≠ 0 then throughLastNewline bs + 1
    else if b = 10 then 1 else 0

/-- The white space at offset `p` of `cs`: the longest run of bytes of the class `\s`
that starts there. -/
def spaceRun (cs : List Nat) (p : Nat) : List Nat :=
  (cs.drop p).takeWhile isSpace

/-- The number of bytes at offset `p` of `cs` that make up whole blank or
white-space-only lines: the white space at `p` up to and including its last line feed. -/
def blankTail (cs : List Nat) (p : Nat) : Nat :=
  throughLastNewline (spaceRun cs p)

/-- The offset right after the delimiter line at offset `i` and the blank or
white-space-only lines that follow it. -/
def matchEnd (cs : List Nat) (i : Nat) : Nat :=
  i + lineLength cs i + blankTail cs (i + lineLength cs i)

/-! ## Notions used to state the properties of the finders -/

/-- The test of `findNonLegacy` on an entry of a candidate directory: its name equals
the family name under case folding and it is a directory. -/
def isFamilyDir (equalFold : GoString → GoString → Bool) (name : GoString)
    (file : FileInfo) : Bool :=
  equalFold file.name name && file.isDir

/-- The test of `findNonLegacy` on an entry of the family directory: its name ends in `.md`. -/
def isTemplate (tf : FileInfo) : Bool :=
  hasSuffix tf.name (str ".md")

/-- The paths of the entries of `templates` whose name ends in `.md`, in listing order,
for the family directory `fileName` inside `dir`. -/
def templatePaths (dir fileName : GoString) (templates : List FileInfo) : List GoString :=
  (templates.filter isTemplate).map (fun tf => pathJoin [dir, fileName, tf.name])

/-- The test of `findLegacy` on an entry of a candidate directory. -/
def isLegacyFile (equalFold : GoString → GoString → Bool) (name : GoString)
    (file : FileInfo) : Bool :=
  equalFold file.name (name ++ str ".md")

/-- The entries of a directory, none when it cannot be listed. -/
def entries (fs : FileSystem) (dir : GoString) : List FileInfo :=
  match fs.readDir dir with
  | .ok files => files
  | .error _ => []

/-- The file system `fs` with the answer of `ioutil.ReadDir` for `dir` replaced by `r`. -/
def FileSystem.withDir (fs : FileSystem) (dir : GoString)
    (r : Except ReadError (List FileInfo)) : FileSystem where
  readDir p := if p = dir then r else fs.readDir p
  readFile := fs.readFile

/-- The file system `fs` without the directory `name` of `dir`: `dir` no longer lists
it and listing it reports that it does not exist. -/
def FileSystem.removeDir (fs : FileSystem) (dir name : GoString) : FileSystem where
  readDir p :=
    if p = pathJoin [dir, name] then .error .notExist
    else if p = dir then (fs.readDir p).map (List.filter (fun f => f.name ≠ name))
    else fs.readDir p
  readFile := fs.readFile

/-- The names a directory entry can have: non-empty, without a slash, neither `.` nor `..`. -/
def IsEntryName (x : GoString) : Prop :=
  x ≠ [] ∧ 47 ∉ x ∧ x ≠ [46] ∧ x ≠ [46, 46]

instance (x : GoString) : Decidable (IsEntryName x) := by
  unfold IsEntryName
  exact inferInstance

/-- What the entries `files` of the candidate directory `dir` contribute to
`findNonLegacy`: the template paths of the first entry that passes `isFamilyDir`,
nothing when no entry passes or that entry cannot be listed. -/
def filesYield (fs : FileSystem) (equalFold : GoString → GoString → Bool)
    (name dir : GoString) (files : List FileInfo) : List GoString :=
  match files.find? (isFamilyDir equalFold name) with
  | none => []
  | some file =>
    match fs.readDir (pathJoin [dir, file.name]) with
    | .error _ => []
    | .ok templates => templatePaths dir file.name templates

/-- What one candidate directory contributes to `findNonLegacy`; nothing when it cannot
be listed. -/
def dirYield (fs : FileSystem) (equalFold : GoString → GoString → Bool)
    (name dir : GoString) : List GoString :=
  match fs.readDir dir with
  | .error _ => []
  | .ok files => filesYield fs equalFold name dir files

/-! ## Concrete file systems -/

/-- A file system given by two tables; a path that is in neither table does not exist. -/
def tableFS (dirs : List (GoString × Except ReadError (List FileInfo)))
    (files : List (GoString × List Nat)) : FileSystem where
  readDir p :=
    match dirs.lookup p with
    | some r => r
    | none => .error .notExist
  readFile p :=
    match files.lookup p with
    | some cs => .ok cs
    | none => .error .notExist

/-- A repository whose only file is `/repo/.github/bug_report.md`, a template with
front-matter. -/
def bugReportFS : FileSystem :=
  tableFS
    [(str "/repo/.github", .ok [⟨str "bug_report.md", false⟩])]
    [(str "/repo/.github/bug_report.md", str "---\nname: Bug Report\n---\nBody text here\n")]

/-- A repository with the templates `a.md` and `b.md` (and a file that is no template)
in `.github/ISSUE_TEMPLATE`, and a further template in `docs/ISSUE_TEMPLATE`. -/
def twoTemplatesFS : FileSystem :=
  tableFS
    [(str "/repo", .ok [⟨str ".github", true⟩, ⟨str "README.md", false⟩, ⟨str "docs", true⟩]),
     (str "/repo/.github", .ok [⟨str "ISSUE_TEMPLATE", true⟩]),
     (str "/repo/.github/ISSUE_TEMPLATE",
        .ok [⟨str "a.md", false⟩, ⟨str "b.md", false⟩, ⟨str "config.yml", false⟩]),
     (str "/repo/docs", .ok [⟨str "ISSUE_TEMPLATE", true⟩]),
     (str "/repo/docs/ISSUE_TEMPLATE", .ok [⟨str "c.md", false⟩])]
    []

/-- A repository on a case-sensitive file system whose `.github` holds two directories
that differ in case only: `ISSUE_TEMPLATE` with the template `x.md` and
`issue_template` with the templates `a.md` and `b.md`. -/
def caseVariantDirsFS : FileSystem :=
  tableFS
    [(str "/repo", .ok [⟨str ".github", true⟩]),
     (str "/repo/.github", .ok [⟨str "ISSUE_TEMPLATE", true⟩, ⟨str "issue_template", true⟩]),
     (str "/repo/.github/ISSUE_TEMPLATE", .ok [⟨str "x.md", false⟩]),
     (str "/repo/.github/issue_template", .ok [⟨str "a.md", false⟩, ⟨str "b.md", false⟩])]
    []

/-- A repository on a case-sensitive file system whose `.github` holds the directory
`ISSUE_TEMPLATE` without any template and the directory `issue_template` with the
template `bug.md`. -/
def emptyVariantFS : FileSystem :=
  tableFS
    [(str "/repo", .ok [⟨str ".github", true⟩]),
     (str "/repo/.github", .ok [⟨str "ISSUE_TEMPLATE", true⟩, ⟨str "issue_template", true⟩]),
     (str "/repo/.github/ISSUE_TEMPLATE", .ok [⟨str "config.yml", false⟩]),
     (str "/repo/.github/issue_template", .ok [⟨str "bug.md", false⟩])]
    []

/-- A repository with the legacy template `ISSUE_TEMPLATE.md` in `.github` and in `docs`,
whose `.github/ISSUE_TEMPLATE` cannot be listed and whose `docs/ISSUE_TEMPLATE` holds
the template `c.md`. -/
def legacyFS : FileSystem :=
  tableFS
    [(str "/repo", .ok [⟨str ".github", true⟩, ⟨str "docs", true⟩]),
     (str "/repo/.github", .ok [⟨str "ISSUE_TEMPLATE", true⟩, ⟨str "ISSUE_TEMPLATE.md", false⟩]),
     (str "/repo/.github/ISSUE_TEMPLATE", .error .permission),
     (str "/repo/docs", .ok [⟨str "ISSUE_TEMPLATE", true⟩, ⟨str "ISSUE_TEMPLATE.md", false⟩]),
     (str "/repo/docs/ISSUE_TEMPLATE", .ok [⟨str "c.md", false⟩])]
    []

/-- A repository whose `.github/ISSUE_TEMPLATE` holds no template and whose
`docs/ISSUE_TEMPLATE` holds the templates `bug.md` and `feature.md`. -/
def docsTemplatesFS : FileSystem :=
  tableFS
    [(str "/repo", .ok [⟨str ".github", true⟩, ⟨str "docs", true⟩]),
     (str "/repo/.github", .ok [⟨str "ISSUE_TEMPLATE", true⟩]),
     (str "/repo/.github/ISSUE_TEMPLATE", .ok [⟨str "config.yml", false⟩]),
     (str "/repo/docs", .ok [⟨str "ISSUE_TEMPLATE", true⟩]),
     (str "/repo/docs/ISSUE_TEMPLATE", .ok [⟨str "bug.md", false⟩, ⟨str "feature.md", false⟩])]
    []

/-- A repository whose `.github` holds the directory `ISSUE_TEMPLATE.md`, which cannot
be listed, and the directory `ISSUE_TEMPLATE`, whose only entry is the directory `x.md`,
which cannot be listed either. -/
def templateNamedDirsFS : FileSystem :=
  tableFS
    [(str "/repo", .ok [⟨str ".github", true⟩]),
     (str "/repo/.github", .ok [⟨str "ISSUE_TEMPLATE", true⟩, ⟨str "ISSUE_TEMPLATE.md", true⟩]),
     (str "/repo/.github/ISSUE_TEMPLATE", .ok [⟨str "x.md", true⟩]),
     (str "/repo/.github/ISSUE_TEMPLATE.md", .error .permission),
     (str "/repo/.github/ISSUE_TEMPLATE/x.md", .error .permission)]
    []

/-- A repository without any template. -/
def noTemplatesFS : FileSystem :=
  tableFS
    [(str "/repo", .ok [⟨str ".github", true⟩, ⟨str "README.md", false⟩]),
     (str "/repo/.github", .ok [⟨str "ISSUE_TEMPLATE", true⟩, ⟨str "workflows", true⟩]),
     (str "/repo/.github/ISSUE_TEMPLATE", .ok [⟨str "config.yml", false⟩])]
    []

/-- A template whose closing delimiter line is followed by one blank line. -/
def oneBlankLineTemplate : List Nat := str "---\nname: Bug Report\n---\n\nBody text here\n"

/-- A template whose closing delimiter line is followed by two blank lines. -/
def blankLinesTemplate : List Nat := str "---\nname: x\n---\n\n\nBody\n"

/-- A file system whose only file is `t.md`, with the contents `blankLinesTemplate`. -/
def blankLinesFS : FileSystem :=
  tableFS [] [(str "t.md", blankLinesTemplate)]

/-- A stand-in for `yaml.Unmarshal` that succeeds with the name `Bug Report` on every input. -/
def bugReportYaml (_ : List Nat) : Option GoString := some (str "Bug Report")

/-! ## The extractors: properties -/

theorem pathBase_last (dir name : GoString) (hne : name ≠ []) (hslash : 47 ∉ name) :
    pathBase (dir ++ 47 :: name) = name := by
  have hrev : name.reverse ≠ [] := by simpa using hne
  obtain ⟨b, bs, hb⟩ := List.exists_cons_of_ne_nil hrev
  have hb47 : b ≠ 47 := by
    intro h
    apply hslash
    have : b ∈ name.reverse := by rw [hb]; simp
    simpa [h] using this
  have hall : ∀ x ∈ name.reverse, decide (x ≠ 47) = true := by
    intro x hx
    have : x ∈ name := by simpa using hx
    simp only [decide_eq_true_eq]
    intro h
    exact hslash (h ▸ this)
  unfold pathBase
  have h1 : (dir ++ 47 :: name) ≠ [] := by simp
  rw [if_neg h1]
  have h2 : (dir ++ 47 :: name).reverse = name.reverse ++ 47 :: dir.reverse := by simp
  have h3 : List.dropWhile (fun b => decide (b = 47)) (name.reverse ++ 47 :: dir.reverse)
      = name.reverse ++ 47 :: dir.reverse := by
    rw [hb]
    simp [List.dropWhile, hb47]
  have h4 : List.takeWhile (fun b => decide (b ≠ 47)) (name.reverse ++ 47 :: dir.reverse)
      = name.reverse := by
    rw [List.takeWhile_append_of_pos hall]
    simp [List.takeWhile]
  simp only [h2, h3, List.reverse_reverse, h4]
  simp [hne]

/-- C4: `extractContents` returns the empty byte sequence when the file cannot be read;
when `detectFrontmatter` reports a span `(0, e)` it returns exactly the suffix of the
contents from offset `e`, so that the contents are the first `e` bytes followed by the
result; in every other case it returns the contents unchanged; and for the contents
`"---\nname: Bug Report\n---\nBody text here\n"` the result is `"Body text here\n"`. -/
theorem extractContents_spec (fs : FileSystem) (filePath : GoString) :
    (∀ err, fs.readFile filePath = .error err → extractContents fs filePath = []) ∧
    (∀ cs e, fs.readFile filePath = .ok cs → detectFrontmatter cs = (0, e) →
      extractContents fs filePath = cs.drop e.toNat ∧
      cs = cs.take e.toNat ++ extractContents fs filePath) ∧
    (∀ cs, fs.readFile filePath = .ok cs → (detectFrontmatter cs).1 ≠ 0 →
      extractContents fs filePath = cs) ∧
    (fs.readFile filePath = .ok (str "---\nname: Bug Report\n---\nBody text here\n") →
      extractContents fs filePath = str "Body text here\n") := by
  refine ⟨?_, ?_, ?_, ?_⟩
  · intro err h
    simp [extractContents, h]
  · intro cs e h hd
    have hr : extractContents fs filePath = cs.drop e.toNat := by
      simp [extractContents, h, hd]
    rw [hr]
    exact ⟨rfl, (List.take_append_drop _ _).symm⟩
  · intro cs h hd
    simp [extractContents, h, hd]
  · intro h
    have hd : detectFrontmatter (str "---\nname: Bug Report\n---\nBody text here\n") = (0, 25) := by
      decide
    simp only [extractContents, h, hd]
    decide

/-- Witness for C4 on the repository `bugReportFS`. -/
theorem extractContents_spec_witness :
    extractContents bugReportFS (str "/repo/.github/bug_report.md") = str "Body text here\n" ∧
    extractContents bugReportFS (str "/repo/.github/missing.md") = [] :=
  ⟨(extractContents_spec bugReportFS (str "/repo/.github/bug_report.md")).2.2.2 (by decide),
   (extractContents_spec bugReportFS (str "/repo/.github/missing.md")).1 .notExist (by decide)⟩

/-- C5: `extractName` returns the parsed name when the file was read, front-matter was
detected at offset 0, parsing the bytes of the front-matter span succeeded and the
parsed name is non-empty; in every other case (read failure, no front-matter or
front-matter not at offset 0, parse failure, empty name) it returns `path.Base` of the
file path, which is the last path component, extension included. -/
theorem extractName_spec (fs : FileSystem) (yamlUnmarshal : List Nat → Option GoString)
    (filePath : GoString) :
    (∀ cs e templateName, fs.readFile filePath = .ok cs → detectFrontmatter cs = (0, e) →
      yamlUnmarshal (cs.take e.toNat) = some templateName → templateName ≠ [] →
      extractName fs yamlUnmarshal filePath = templateName) ∧
    (∀ err, fs.readFile filePath = .error err →
      extractName fs yamlUnmarshal filePath = pathBase filePath) ∧
    (∀ cs, fs.readFile filePath = .ok cs → (detectFrontmatter cs).1 ≠ 0 →
      extractName fs yamlUnmarshal filePath = pathBase filePath) ∧
    (∀ cs e, fs.readFile filePath = .ok cs → detectFrontmatter cs = (0, e) →
      yamlUnmarshal (cs.take e.toNat) = none →
      extractName fs yamlUnmarshal filePath = pathBase filePath) ∧
    (∀ cs e, fs.readFile filePath = .ok cs → detectFrontmatter cs = (0, e) →
      yamlUnmarshal (cs.take e.toNat) = some [] →
      extractName fs yamlUnmarshal filePath = pathBase filePath) ∧
    (∀ dir name : GoString, name ≠ [] → 47 ∉ name → pathBase (dir ++ 47 :: name) = name) ∧
    pathBase (str "/repo/.github/bug_report.md") = str "bug_report.md" := by
  refine ⟨?_, ?_, ?_, ?_, ?_, pathBase_last, by decide⟩
  · intro cs e templateName h hd hy hne
    simp [extractName, h, hd, hy, hne, Except.toBool]
  · intro err h
    simp [extractName, h, Except.toBool]
  · intro cs h hd
    simp [extractName, h, hd]
  · intro cs e h hd hy
    simp [extractName, h, hd, hy]
  · intro cs e h hd hy
    simp [extractName, h, hd, hy]

/-- Witness for C5 on the repository `bugReportFS`: the parsed name for the template
with front-matter, the base name for a file that cannot be read. -/
theorem extractName_spec_witness :
    extractName bugReportFS bugReportYaml (str "/repo/.github/bug_report.md") = str "Bug Report" ∧
    extractName bugReportFS bugReportYaml (str "/repo/.github/missing.md") = str "missing.md" :=
  ⟨(extractName_spec bugReportFS bugReportYaml (str "/repo/.github/bug_report.md")).1
      (str "---\nname: Bug Report\n---\nBody text here\n") 25 (str "Bug Report")
      (by decide) (by decide) rfl (by decide),
   ((extractName_spec bugReportFS bugReportYaml (str "/repo/.github/missing.md")).2.1
      .notExist (by decide)).trans (by decide)⟩

/-! ## Order on strings and sorting -/

theorem strLe_nil_left (t : GoString) : strLe [] t := by
  cases t <;> simp [strLe, strLess]

theorem strLe_cons_nil (a : Nat) (s : GoString) : ¬ strLe (a :: s) [] := by
  simp [strLe, strLess]

theorem strLe_cons_cons (a b : Nat) (s t : GoString) :
    strLe (a :: s) (b :: t) ↔ a < b ∨ (a = b ∧ strLe s t) := by
  simp only [strLe, strLess, Bool.or_eq_false_iff, Bool.and_eq_false_iff, decide_eq_false_iff_not,
    beq_eq_false_iff_ne, ne_eq]
  constructor
  · rintro ⟨h1, h2 | h2⟩
    · left; omega
    · by_cases h : a = b
      · right; exact ⟨h, h2⟩
      · left; omega
  · rintro (h | ⟨h1, h2⟩)
    · exact ⟨by omega, Or.inl (by omega)⟩
    · exact ⟨by omega, Or.inr h2⟩

theorem strLe_total : ∀ s t : GoString, strLe s t ∨ strLe t s
  | [], t => Or.inl (strLe_nil_left t)
  | _ :: _, [] => Or.inr (strLe_nil_left _)
  | a :: s, b :: t => by
    rw [strLe_cons_cons, strLe_cons_cons]
    rcases Nat.lt_trichotomy a b with h | h | h
    · exact Or.inl (Or.inl h)
    · rcases strLe_total s t with h2 | h2
      · exact Or.inl (Or.inr ⟨h, h2⟩)
      · exact Or.inr (Or.inr ⟨h.symm, h2⟩)
    · exact Or.inr (Or.inl h)

theorem strLe_trans : ∀ s t u : GoString, strLe s t → strLe t u → strLe s u
  | [], _, u, _, _ => strLe_nil_left u
  | a :: s, [], _, h, _ => absurd h (strLe_cons_nil a s)
  | _ :: _, b :: t, [], _, h => absurd h (strLe_cons_nil b t)
  | a :: s, b :: t, c :: u, h1, h2 => by
    rw [strLe_cons_cons] at h1 h2 ⊢
    rcases h1 with h1 | ⟨h1, h1'⟩ <;> rcases h2 with h2 | ⟨h2, h2'⟩
    · left; omega
    · left; omega
    · left; omega
    · exact Or.inr ⟨h1.trans h2, strLe_trans s t u h1' h2'⟩

theorem strLe_antisymm : ∀ s t : GoString, strLe s t → strLe t s → s = t
  | [], [], _, _ => rfl
  | [], b :: t, _, h => absurd h (strLe_cons_nil b t)
  | a :: s, [], h, _ => absurd h (strLe_cons_nil a s)
  | a :: s, b :: t, h1, h2 => by
    rw [strLe_cons_cons] at h1 h2
    rcases h1 with h1 | ⟨h1, h1'⟩ <;> rcases h2 with h2 | ⟨h2, h2'⟩
    · omega
    · omega
    · omega
    · rw [h1, strLe_antisymm s t h1' h2']

theorem strLe_append_left (p : GoString) {s t : GoString} (h : strLe s t) :
    strLe (p ++ s) (p ++ t) := by
  induction p with
  | nil => exact h
  | cons a p ih =>
    rw [List.cons_append, List.cons_append, strLe_cons_cons]
    exact Or.inr ⟨rfl, ih⟩

theorem sortStrings_sorted (x : List GoString) : (sortStrings x).Sorted strLe :=
  haveI : IsTotal GoString strLe := ⟨strLe_total⟩
  haveI : IsTrans GoString strLe := ⟨strLe_trans⟩
  List.sorted_insertionSort strLe x

theorem sortStrings_perm (x : List GoString) : (sortStrings x).Perm x :=
  List.perm_insertionSort strLe x

theorem sortStrings_eq_of_perm {x y : List GoString} (h : x.Perm y) (hy : y.Sorted strLe) :
    sortStrings x = y :=
  haveI : IsAntisymm GoString strLe := ⟨strLe_antisymm⟩
  List.eq_of_perm_of_sorted ((sortStrings_perm x).trans h) (sortStrings_sorted x) hy

/-! ## `path.Join` with a directory entry as last element -/

theorem intercalate_cons_cons (sep a b : GoString) (l : List GoString) :
    sep.intercalate (a :: b :: l) = a ++ sep ++ sep.intercalate (b :: l) := by
  simp [List.intercalate, List.intersperse]

theorem intercalate_append_singleton (sep x : GoString) (l : List GoString) (h : l ≠ []) :
    sep.intercalate (l ++ [x]) = sep.intercalate l ++ sep ++ x := by
  induction l with
  | nil => exact absurd rfl h
  | cons a l ih =>
    cases l with
    | nil => simp [List.intercalate, List.intersperse]
    | cons b l =>
      rw [List.cons_append, List.cons_append, intercalate_cons_cons, ← List.cons_append,
        ih (by simp), intercalate_cons_cons]
      simp

theorem splitSlash_ne_nil (s : GoString) : splitSlash s ≠ [] := by
  induction s with
  | nil => simp [splitSlash]
  | cons b s ih =>
    unfold splitSlash
    split
    · simp
    · split <;> simp

theorem splitSlash_of_not_mem (x : GoString) (h : 47 ∉ x) : splitSlash x = [x] := by
  induction x with
  | nil => simp [splitSlash]
  | cons b x ih =>
    have hb : b ≠ 47 := fun hb => h (by simp [hb])
    have hx : 47 ∉ x := fun hx => h (by simp [hx])
    simp [splitSlash, hb, ih hx]

theorem splitSlash_append (s x : GoString) (h : 47 ∉ x) :
    splitSlash (s ++ 47 :: x) = splitSlash s ++ [x] := by
  induction s with
  | nil => simp [splitSlash, splitSlash_of_not_mem x h]
  | cons b s ih =>
    by_cases hb : b = 47
    · simp [splitSlash, hb, ih]
    · obtain ⟨e, es, he⟩ := List.exists_cons_of_ne_nil (splitSlash_ne_nil s)
      simp [splitSlash, hb, ih, he]

theorem cleanElems_append (rooted : Bool) (l₁ l₂ out : List GoString) :
    cleanElems rooted (l₁ ++ l₂) out = cleanElems rooted l₂ (cleanElems rooted l₁ out) := by
  simp [cleanElems, List.foldl_append]

theorem cleanElems_entry (rooted : Bool) (x : GoString) (out : List GoString)
    (h : IsEntryName x) : cleanElems rooted [x] out = out ++ [x] := by
  obtain ⟨h1, -, h3, h4⟩ := h
  simp [cleanElems, cleanStep, h1, h3, h4]

theorem pathClean_append_entry (s : GoString) (hs : s ≠ []) :
    ∃ p : GoString, ∀ x, IsEntryName x → pathClean (s ++ 47 :: x) = p ++ x := by
  refine ⟨(if s.head? = some 47 then [47] else []) ++
    (if cleanElems (s.head? = some 47) (splitSlash s) [] = [] then []
      else [47].intercalate (cleanElems (s.head? = some 47) (splitSlash s) []) ++ [47]), ?_⟩
  intro x hx
  have hne : s ++ 47 :: x ≠ [] := by simp
  have hhead : (s ++ 47 :: x).head? = s.head? := by
    cases s with
    | nil => exact absurd rfl hs
    | cons a s => rfl
  unfold pathClean
  rw [if_neg hne]
  simp only [hhead, splitSlash_append s x hx.2.1, cleanElems_append, cleanElems_entry _ _ _ hx]
  generalize cleanElems (decide (s.head? = some 47)) (splitSlash s) [] = out
  by_cases hout : out = []
  · subst hout
    by_cases hr : s.head? = some 47
    · simp [hr, List.intercalate, List.intersperse]
    · simp [hr, List.intercalate, List.intersperse]
  · by_cases hr : s.head? = some 47
    · simp [hout, hr, intercalate_append_singleton _ _ _ hout]
    · simp [hout, hr, intercalate_append_singleton _ _ _ hout]

theorem pathClean_entry (x : GoString) (hx : IsEntryName x) : pathClean x = x := by
  obtain ⟨h1, h2, h3, h4⟩ := hx
  have hhead : x.head? ≠ some 47 := by
    cases x with
    | nil => exact absurd rfl h1
    | cons a x =>
      intro h
      apply h2
      simp at h
      simp [h]
  simp [pathClean, h1, hhead, splitSlash_of_not_mem x h2, cleanElems, cleanStep, h3, h4, List.intercalate,
    List.intersperse]

/-- The path of an entry of the directory `dir/fileName` is a prefix that depends on the
directory only, followed by the name of the entry. -/
theorem pathJoin_entry (dir fileName : GoString) :
    ∃ p : GoString, ∀ x, IsEntryName x → pathJoin [dir, fileName, x] = p ++ x := by
  cases hes : [dir, fileName].filter (fun e => e ≠ []) with
  | nil =>
    refine ⟨[], fun x hx => ?_⟩
    have hf : [dir, fileName, x].filter (fun e => e ≠ []) = [x] := by
      have : [dir, fileName, x] = [dir, fileName] ++ [x] := rfl
      rw [this, List.filter_append, hes]
      simp [hx.1]
    simp only [pathJoin, hf]
    simp [List.intercalate, List.intersperse, pathClean_entry x hx]
  | cons e es =>
    have he : e ≠ [] := by
      have : e ∈ [dir, fileName].filter (fun e => e ≠ []) := by rw [hes]; simp
      simpa using (List.mem_filter.mp this).2
    have hs : [47].intercalate (e :: es) ≠ [] := by
      cases es with
      | nil => simpa [List.intercalate, List.intersperse] using he
      | cons b es =>
        rw [intercalate_cons_cons]
        simp [he]
    obtain ⟨p, hp⟩ := pathClean_append_entry _ hs
    refine ⟨p, fun x hx => ?_⟩
    have hf : [dir, fileName, x].filter (fun e => e ≠ []) = (e :: es) ++ [x] := by
      have : [dir, fileName, x] = [dir, fileName] ++ [x] := rfl
      rw [this, List.filter_append, hes]
      simp [hx.1]
    have hj : pathJoin [dir, fileName, x]
        = pathClean ([47].intercalate ((e :: es) ++ [x])) := by
      simp only [pathJoin, hf]
      rfl
    rw [hj, intercalate_append_singleton _ _ _ (by simp), ← hp x hx]
    simp

/-! ## The loops of `findNonLegacy` -/

theorem collectTemplates_eq (dir fileName : GoString) (templates : List FileInfo)
    (results : List GoString) :
    collectTemplates dir fileName templates results
      = results ++ templatePaths dir fileName templates := by
  induction templates generalizing results with
  | nil => simp [collectTemplates, templatePaths]
  | cons tf templates ih =>
    unfold collectTemplates
    by_cases h : hasSuffix tf.name (str ".md") = true
    · have h2 : isTemplate tf = true := h
      rw [if_pos h, ih]
      simp [templatePaths, List.filter_cons, h2]
    · have h2 : ¬ isTemplate tf = true := h
      rw [if_neg h, ih]
      simp [templatePaths, List.filter_cons, h2]

theorem scanFiles_nil (fs : FileSystem) (equalFold : GoString → GoString → Bool)
    (dir name : GoString) (files : List FileInfo) :
    scanFiles fs equalFold dir name files []
      = (filesYield fs equalFold name dir files,
         decide (filesYield fs equalFold name dir files ≠ [])) := by
  induction files with
  | nil => simp [scanFiles, filesYield]
  | cons file files ih =>
    unfold scanFiles
    by_cases h : (equalFold file.name name && file.isDir) = true
    · have h2 : isFamilyDir equalFold name file = true := h
      rw [if_pos h]
      simp only [filesYield, List.find?_cons, h2]
      cases hr : fs.readDir (pathJoin [dir, file.name]) with
      | error e => simp
      | ok templates =>
        simp only [collectTemplates_eq, List.nil_append]
        by_cases hp : templatePaths dir file.name templates = []
        · simp [hp]
        · have hlen : 0 < (templatePaths dir file.name templates).length :=
            List.length_pos.mpr hp
          simp [hp, hlen]
    · have h2 : isFamilyDir equalFold name file = false := by
        simpa [isFamilyDir] using h
      rw [if_neg h, ih]
      simp [filesYield, List.find?_cons, h2]

theorem mainLoop_cons_nil (fs : FileSystem) (equalFold : GoString → GoString → Bool)
    (name dir : GoString) (dirs : List GoString) :
    mainLoop fs equalFold name (dir :: dirs) []
      = if dirYield fs equalFold name dir ≠ [] then dirYield fs equalFold name dir
        else mainLoop fs equalFold name dirs [] := by
  conv_lhs => rw [mainLoop]
  cases hr : fs.readDir dir with
  | error e => simp [dirYield, hr]
  | ok files =>
    simp only [scanFiles_nil, dirYield, hr]
    by_cases h : filesYield fs equalFold name dir files = []
    · simp [h]
    · simp [h]

theorem mainLoop_candidates (fs : FileSystem) (equalFold : GoString → GoString → Bool)
    (rootDir name : GoString) :
    mainLoop fs equalFold name (candidateDirs rootDir) []
      = if dirYield fs equalFold name (pathJoin [rootDir, str ".github"]) ≠ [] then
          dirYield fs equalFold name (pathJoin [rootDir, str ".github"])
        else if dirYield fs equalFold name rootDir ≠ [] then
          dirYield fs equalFold name rootDir
        else dirYield fs equalFold name (pathJoin [rootDir, str "docs"]) := by
  simp only [candidateDirs, mainLoop_cons_nil]
  by_cases h : dirYield fs equalFold name (pathJoin [rootDir, str "docs"]) = []
  · simp [h, mainLoop]
  · simp [h, mainLoop]

theorem templatePaths_nil (dir fileName : GoString) : templatePaths dir fileName [] = [] := rfl

/-- A candidate directory contributes through the listings only, an unlistable
directory counting as one without entries. -/
theorem dirYield_eq_entries (fs : FileSystem) (equalFold : GoString → GoString → Bool)
    (name dir : GoString) :
    dirYield fs equalFold name dir
      = match (entries fs dir).find? (isFamilyDir equalFold name) with
        | none => []
        | some file => templatePaths dir file.name (entries fs (pathJoin [dir, file.name])) := by
  unfold dirYield entries
  cases fs.readDir dir with
  | error e => simp
  | ok files =>
    simp only [filesYield]
    cases files.find? (isFamilyDir equalFold name) with
    | none => rfl
    | some file =>
      simp only
      cases fs.readDir (pathJoin [dir, file.name]) with
      | error e => simp [templatePaths_nil]
      | ok templates => rfl

theorem findNonLegacy_congr (fs fs' : FileSystem) (equalFold : GoString → GoString → Bool)
    (rootDir name : GoString) (h : ∀ p, entries fs p = entries fs' p) :
    findNonLegacy fs equalFold rootDir name = findNonLegacy fs' equalFold rootDir name := by
  have hy : ∀ dir, dirYield fs equalFold name dir = dirYield fs' equalFold name dir := by
    intro dir
    simp only [dirYield_eq_entries, h]
  simp only [findNonLegacy, mainLoop_candidates, hy]

/-! ## The loops of `findLegacy` -/

theorem legacyFiles_eq (equalFold : GoString → GoString → Bool) (dir name : GoString)
    (files : List FileInfo) :
    legacyFiles equalFold dir name files
      = (files.find? (isLegacyFile equalFold name)).map (fun file => pathJoin [dir, file.name]) := by
  induction files with
  | nil => rfl
  | cons file files ih =>
    unfold legacyFiles
    by_cases h : equalFold file.name (name ++ str ".md") = true
    · have h2 : isLegacyFile equalFold name file = true := h
      simp [h, List.find?_cons, h2]
    · have h2 : isLegacyFile equalFold name file = false := by
        simpa [isLegacyFile] using h
      rw [if_neg h, ih]
      simp [List.find?_cons, h2]

theorem legacyDirs_cons (fs : FileSystem) (equalFold : GoString → GoString → Bool)
    (name dir : GoString) (dirs : List GoString) :
    legacyDirs fs equalFold name (dir :: dirs)
      = match (entries fs dir).find? (isLegacyFile equalFold name) with
        | some file => some (pathJoin [dir, file.name])
        | none => legacyDirs fs equalFold name dirs := by
  conv_lhs => rw [legacyDirs]
  unfold entries
  cases fs.readDir dir with
  | error e => simp
  | ok files =>
    simp only [legacyFiles_eq]
    cases files.find? (isLegacyFile equalFold name) <;> simp

theorem findLegacy_congr (fs fs' : FileSystem) (equalFold : GoString → GoString → Bool)
    (rootDir name : GoString) (h : ∀ p, entries fs p = entries fs' p) :
    findLegacy fs equalFold rootDir name = findLegacy fs' equalFold rootDir name := by
  unfold findLegacy candidateDirs
  rw [legacyDirs_cons, legacyDirs_cons, legacyDirs_cons, legacyDirs_cons, legacyDirs_cons,
    legacyDirs_cons]
  simp only [h, legacyDirs]

theorem entries_withDir (fs : FileSystem) (dir : GoString) (err : ReadError)
    (h : fs.readDir dir = .error err) (r : Except ReadError (List FileInfo))
    (hr : r = .ok [] ∨ ∃ e, r = .error e) (p : GoString) :
    entries (fs.withDir dir r) p = entries fs p := by
  unfold entries FileSystem.withDir
  by_cases hp : p = dir
  · subst hp
    rcases hr with hr | ⟨e, hr⟩ <;> simp [hr, h]
  · simp [hp]

/-! ## The finders: properties -/

/-- C1 as stated fails: in `caseVariantDirsFS` the directory `/repo/.github/issue_template`
exists and its entries ending in `.md` are `a.md` and `b.md`, yet `findNonLegacy` for the
family `issue_template` returns the template of the directory `ISSUE_TEMPLATE`, which
precedes it in the listing of `.github` and equals the family name under case folding. -/
theorem findNonLegacy_github_counterexample :
    caseVariantDirsFS.readDir (pathJoin [str "/repo", str ".github"])
      = .ok [⟨str "ISSUE_TEMPLATE", true⟩, ⟨str "issue_template", true⟩] ∧
    caseVariantDirsFS.readDir (pathJoin [pathJoin [str "/repo", str ".github"], str "issue_template"])
      = .ok [⟨str "a.md", false⟩, ⟨str "b.md", false⟩] ∧
    findNonLegacy caseVariantDirsFS asciiEqualFold (str "/repo") (str "issue_template")
      = [str "/repo/.github/ISSUE_TEMPLATE/x.md"] ∧
    findNonLegacy caseVariantDirsFS asciiEqualFold (str "/repo") (str "issue_template")
      ≠ [pathJoin [pathJoin [str "/repo", str ".github"], str "issue_template", str "a.md"],
         pathJoin [pathJoin [str "/repo", str ".github"], str "issue_template", str "b.md"]] := by
  decide

/-- C1, amended: if `<root>/.github` can be listed, the first entry of its listing that is
a directory whose name equals the family name under case folding is named exactly
`<family>`, that directory can be listed, and its entries whose names end in `.md` are
`a.md` and `b.md`, then `findNonLegacy` returns exactly the paths of `a.md` and `b.md`
inside `<root>/.github/<family>`, in this order, whatever `<root>` and `<root>/docs`
contain. -/
theorem findNonLegacy_github_family (fs : FileSystem)
    (equalFold : GoString → GoString → Bool) (rootDir name : GoString)
    (files templates : List FileInfo)
    (hdir : fs.readDir (pathJoin [rootDir, str ".github"]) = .ok files)
    (hfirst : files.find? (isFamilyDir equalFold name) = some ⟨name, true⟩)
    (htemplates :
      fs.readDir (pathJoin [pathJoin [rootDir, str ".github"], name]) = .ok templates)
    (hmd : ((templates.filter isTemplate).map (fun tf => tf.name)).Perm
      [str "a.md", str "b.md"]) :
    findNonLegacy fs equalFold rootDir name
      = [pathJoin [pathJoin [rootDir, str ".github"], name, str "a.md"],
         pathJoin [pathJoin [rootDir, str ".github"], name, str "b.md"]] := by
  have hy : dirYield fs equalFold name (pathJoin [rootDir, str ".github"])
      = templatePaths (pathJoin [rootDir, str ".github"]) name templates := by
    simp [dirYield, hdir, filesYield, hfirst, htemplates]
  have hperm : (templatePaths (pathJoin [rootDir, str ".github"]) name templates).Perm
      [pathJoin [pathJoin [rootDir, str ".github"], name, str "a.md"],
       pathJoin [pathJoin [rootDir, str ".github"], name, str "b.md"]] := by
    have := hmd.map (fun n => pathJoin [pathJoin [rootDir, str ".github"], name, n])
    simpa [templatePaths, List.map_map, Function.comp_def] using this
  have hne : templatePaths (pathJoin [rootDir, str ".github"]) name templates ≠ [] := by
    intro h
    rw [h] at hperm
    simpa using hperm.length_eq
  obtain ⟨p, hp⟩ := pathJoin_entry (pathJoin [rootDir, str ".github"]) name
  have hsorted : List.Sorted strLe
      [pathJoin [pathJoin [rootDir, str ".github"], name, str "a.md"],
       pathJoin [pathJoin [rootDir, str ".github"], name, str "b.md"]] := by
    rw [hp _ (by decide), hp _ (by decide)]
    simp only [List.Sorted, List.pairwise_cons, List.mem_singleton, forall_eq,
      List.not_mem_nil, IsEmpty.forall_iff, implies_true, List.Pairwise.nil, and_true]
    exact strLe_append_left p (by decide)
  unfold findNonLegacy
  rw [mainLoop_candidates, hy, if_pos hne]
  exact sortStrings_eq_of_perm hperm hsorted

/-- Witness for C1 on the repository `twoTemplatesFS`, where `docs/ISSUE_TEMPLATE` holds a
template as well. -/
theorem findNonLegacy_github_family_witness :
    findNonLegacy twoTemplatesFS asciiEqualFold (str "/repo") (str "ISSUE_TEMPLATE")
      = [str "/repo/.github/ISSUE_TEMPLATE/a.md", str "/repo/.github/ISSUE_TEMPLATE/b.md"] :=
  (findNonLegacy_github_family twoTemplatesFS asciiEqualFold (str "/repo") (str "ISSUE_TEMPLATE")
    [⟨str "ISSUE_TEMPLATE", true⟩]
    [⟨str "a.md", false⟩, ⟨str "b.md", false⟩, ⟨str "config.yml", false⟩]
    (by decide) (by decide) (by decide) (by decide)).trans (by decide)

/-- C2: if the listing of `<root>/.github` contains an entry whose name equals
`<family>.md` under case folding, then `findLegacy` returns a present result, the path
inside `<root>/.github` of an entry of that listing whose name equals `<family>.md` under
case folding: the first such entry of the listing, which is the given entry when no
other entry matches; this holds whatever `<root>` and `<root>/docs` contain.  If
`<root>/.github` has no such entry or cannot be listed and the listing of `<root>`
contains one, the result is in the same way the path inside `<root>` of the first such
entry of `<root>`, whatever `<root>/docs` contains. -/
theorem findLegacy_first_match (fs : FileSystem) (equalFold : GoString → GoString → Bool)
    (rootDir name : GoString) :
    (∀ entry ∈ entries fs (pathJoin [rootDir, str ".github"]),
      isLegacyFile equalFold name entry = true →
      ∃ file ∈ entries fs (pathJoin [rootDir, str ".github"]),
        isLegacyFile equalFold name file = true ∧
        (entries fs (pathJoin [rootDir, str ".github"])).find?
          (isLegacyFile equalFold name) = some file ∧
        findLegacy fs equalFold rootDir name
          = some (pathJoin [pathJoin [rootDir, str ".github"], file.name]) ∧
        ((∀ other ∈ entries fs (pathJoin [rootDir, str ".github"]),
            isLegacyFile equalFold name other = true → other = entry) → file = entry)) ∧
    ((∀ entry ∈ entries fs (pathJoin [rootDir, str ".github"]),
        isLegacyFile equalFold name entry = false) →
      ∀ entry ∈ entries fs rootDir, isLegacyFile equalFold name entry = true →
      ∃ file ∈ entries fs rootDir,
        isLegacyFile equalFold name file = true ∧
        (entries fs rootDir).find? (isLegacyFile equalFold name) = some file ∧
        findLegacy fs equalFold rootDir name = some (pathJoin [rootDir, file.name]) ∧
        ((∀ other ∈ entries fs rootDir,
            isLegacyFile equalFold name other = true → other = entry) → file = entry)) := by
  constructor
  · intro entry hmem hentry
    cases hfind : (entries fs (pathJoin [rootDir, str ".github"])).find?
        (isLegacyFile equalFold name) with
    | none =>
      have := List.find?_eq_none.mp hfind entry hmem
      exact absurd hentry this
    | some file =>
      refine ⟨file, List.mem_of_find?_eq_some hfind, List.find?_some hfind, rfl, ?_,
        fun huniq => huniq file (List.mem_of_find?_eq_some hfind) (List.find?_some hfind)⟩
      unfold findLegacy candidateDirs
      rw [legacyDirs_cons, hfind]
  · intro hnone entry hmem hentry
    have hgithub : (entries fs (pathJoin [rootDir, str ".github"])).find?
        (isLegacyFile equalFold name) = none := by
      rw [List.find?_eq_none]
      intro x hx
      simp [hnone x hx]
    cases hfind : (entries fs rootDir).find? (isLegacyFile equalFold name) with
    | none =>
      have := List.find?_eq_none.mp hfind entry hmem
      exact absurd hentry this
    | some file =>
      refine ⟨file, List.mem_of_find?_eq_some hfind, List.find?_some hfind, rfl, ?_,
        fun huniq => huniq file (List.mem_of_find?_eq_some hfind) (List.find?_some hfind)⟩
      unfold findLegacy candidateDirs
      rw [legacyDirs_cons, hgithub]
      simp only
      rw [legacyDirs_cons, hfind]

/-- Witness for C2 on the repository `legacyFS`: the family `issue_template` finds
`.github/ISSUE_TEMPLATE.md`, although `docs` holds a match as well. -/
theorem findLegacy_first_match_witness :
    (∃ file ∈ entries legacyFS (pathJoin [str "/repo", str ".github"]),
      isLegacyFile asciiEqualFold (str "issue_template") file = true ∧
      (entries legacyFS (pathJoin [str "/repo", str ".github"])).find?
        (isLegacyFile asciiEqualFold (str "issue_template")) = some file ∧
      findLegacy legacyFS asciiEqualFold (str "/repo") (str "issue_template")
        = some (pathJoin [pathJoin [str "/repo", str ".github"], file.name]) ∧
      ((∀ other ∈ entries legacyFS (pathJoin [str "/repo", str ".github"]),
          isLegacyFile asciiEqualFold (str "issue_template") other = true →
          other = ⟨str "ISSUE_TEMPLATE.md", false⟩) →
        file = ⟨str "ISSUE_TEMPLATE.md", false⟩)) ∧
    findLegacy legacyFS asciiEqualFold (str "/repo") (str "issue_template")
      = some (str "/repo/.github/ISSUE_TEMPLATE.md") :=
  ⟨(findLegacy_first_match legacyFS asciiEqualFold (str "/repo") (str "issue_template")).1
    ⟨str "ISSUE_TEMPLATE.md", false⟩ (by decide) (by decide), by decide⟩

/-- C3: if no candidate directory contains a directory whose name equals the family
name under case folding and which holds an entry ending in `.md`, then `findNonLegacy`
returns the empty sequence; and if no candidate directory contains an entry whose name
equals `<family>.md` under case folding, then `findLegacy` returns none. -/
theorem finders_nothing_found (fs : FileSystem) (equalFold : GoString → GoString → Bool)
    (rootDir name : GoString) :
    ((∀ dir ∈ candidateDirs rootDir, ∀ file ∈ entries fs dir,
        isFamilyDir equalFold name file = true →
        ∀ tf ∈ entries fs (pathJoin [dir, file.name]), isTemplate tf = false) →
      findNonLegacy fs equalFold rootDir name = []) ∧
    ((∀ dir ∈ candidateDirs rootDir, ∀ file ∈ entries fs dir,
        isLegacyFile equalFold name file = false) →
      findLegacy fs equalFold rootDir name = none) := by
  constructor
  · intro h
    have hy : ∀ dir ∈ candidateDirs rootDir, dirYield fs equalFold name dir = [] := by
      intro dir hdir
      rw [dirYield_eq_entries]
      cases hfind : (entries fs dir).find? (isFamilyDir equalFold name) with
      | none => rfl
      | some file =>
        have hall := h dir hdir file (List.mem_of_find?_eq_some hfind) (List.find?_some hfind)
        simp only [templatePaths, List.map_eq_nil_iff, List.filter_eq_nil_iff]
        intro tf htf
        simp [hall tf htf]
    unfold findNonLegacy
    rw [mainLoop_candidates, hy _ (by simp [candidateDirs]), hy _ (by simp [candidateDirs]),
      hy _ (by simp [candidateDirs])]
    rfl
  · intro h
    have hnone : ∀ dir ∈ candidateDirs rootDir,
        (entries fs dir).find? (isLegacyFile equalFold name) = none := by
      intro dir hdir
      rw [List.find?_eq_none]
      intro x hx
      simp [h dir hdir x hx]
    unfold findLegacy
    have hc : candidateDirs rootDir
        = [pathJoin [rootDir, str ".github"], rootDir, pathJoin [rootDir, str "docs"]] := rfl
    rw [hc] at hnone ⊢
    rw [legacyDirs_cons, hnone _ (by simp), legacyDirs_cons, hnone _ (by simp), legacyDirs_cons,
      hnone _ (by simp)]
    rfl

/-- Witness for C3 on the repository `noTemplatesFS`, whose `.github/ISSUE_TEMPLATE`
holds no file ending in `.md`. -/
theorem finders_nothing_found_witness :
    findNonLegacy noTemplatesFS asciiEqualFold (str "/repo") (str "issue_template") = [] ∧
    findLegacy noTemplatesFS asciiEqualFold (str "/repo") (str "issue_template") = none :=
  ⟨(finders_nothing_found noTemplatesFS asciiEqualFold (str "/repo") (str "issue_template")).1
      (by decide),
   (finders_nothing_found noTemplatesFS asciiEqualFold (str "/repo") (str "issue_template")).2
      (by decide)⟩

theorem dirYield_nil_or (fs : FileSystem) (equalFold : GoString → GoString → Bool)
    (name dir : GoString) :
    dirYield fs equalFold name dir = [] ∨
    ∃ files file templates, fs.readDir dir = .ok files ∧
      files.find? (isFamilyDir equalFold name) = some file ∧
      fs.readDir (pathJoin [dir, file.name]) = .ok templates ∧
      dirYield fs equalFold name dir = templatePaths dir file.name templates := by
  unfold dirYield
  cases hdir : fs.readDir dir with
  | error e => exact Or.inl rfl
  | ok files =>
    simp only [filesYield]
    cases hfind : files.find? (isFamilyDir equalFold name) with
    | none => exact Or.inl rfl
    | some file =>
      cases hsub : fs.readDir (pathJoin [dir, file.name]) with
      | error e => exact Or.inl (by simp [hsub])
      | ok templates => exact Or.inr ⟨files, file, templates, rfl, hfind, hsub, by simp [hsub]⟩

/-- The unsorted result of `findNonLegacy` is the contribution of one candidate
directory, and of the first one that contributes anything. -/
theorem mainLoop_eq_dirYield (fs : FileSystem) (equalFold : GoString → GoString → Bool)
    (rootDir name : GoString) :
    ∃ dir ∈ candidateDirs rootDir,
      mainLoop fs equalFold name (candidateDirs rootDir) [] = dirYield fs equalFold name dir := by
  rw [mainLoop_candidates]
  by_cases h1 : dirYield fs equalFold name (pathJoin [rootDir, str ".github"]) = []
  · by_cases h2 : dirYield fs equalFold name rootDir = []
    · exact ⟨pathJoin [rootDir, str "docs"], by simp [candidateDirs], by simp [h1, h2]⟩
    · exact ⟨rootDir, by simp [candidateDirs], by simp [h1, h2]⟩
  · exact ⟨pathJoin [rootDir, str ".github"], by simp [candidateDirs], by simp [h1]⟩

theorem mainLoop_ne_nil (fs : FileSystem) (equalFold : GoString → GoString → Bool)
    (rootDir name dir : GoString) (hdir : dir ∈ candidateDirs rootDir)
    (h : dirYield fs equalFold name dir ≠ []) :
    mainLoop fs equalFold name (candidateDirs rootDir) [] ≠ [] := by
  rw [mainLoop_candidates]
  simp only [candidateDirs, List.mem_cons, List.mem_singleton, List.not_mem_nil, or_false] at hdir
  by_cases h1 : dirYield fs equalFold name (pathJoin [rootDir, str ".github"]) = []
  · by_cases h2 : dirYield fs equalFold name rootDir = []
    · rcases hdir with hd | hd | hd
      · exact absurd (hd ▸ h1) h
      · exact absurd (hd ▸ h2) h
      · simpa [h1, h2, hd] using h
    · simp [h1, h2]
  · simp [h1]

theorem mainLoop_first (fs : FileSystem) (equalFold : GoString → GoString → Bool)
    (name dir : GoString) :
    ∀ dirs : List GoString, dir ∈ dirs → dirYield fs equalFold name dir ≠ [] →
      (∀ dir' ∈ dirs.takeWhile (fun d => d ≠ dir), dirYield fs equalFold name dir' = []) →
      mainLoop fs equalFold name dirs [] = dirYield fs equalFold name dir
  | [], hmem, _, _ => by simp at hmem
  | d :: dirs, hmem, hne, hbefore => by
    rw [mainLoop_cons_nil]
    by_cases hd : d = dir
    · subst hd
      rw [if_pos hne]
    · have hdnil : dirYield fs equalFold name d = [] :=
        hbefore d (by simp [List.takeWhile_cons, hd])
      have hmem' : dir ∈ dirs := by
        rcases List.mem_cons.mp hmem with h | h
        · exact absurd h.symm hd
        · exact h
      rw [hdnil]
      simp only [ne_eq, not_true_eq_false, if_false]
      exact mainLoop_first fs equalFold name dir dirs hmem' hne
        (fun dir' hdir' => hbefore dir' (by
          rw [List.takeWhile_cons]
          simp only [ne_eq, hd, not_false_eq_true, decide_True, if_true]
          exact List.mem_cons_of_mem _ hdir'))

theorem mainLoop_all_nil (fs : FileSystem) (equalFold : GoString → GoString → Bool)
    (name : GoString) :
    ∀ dirs : List GoString, (∀ dir ∈ dirs, dirYield fs equalFold name dir = []) →
      mainLoop fs equalFold name dirs [] = []
  | [], _ => rfl
  | d :: dirs, h => by
    rw [mainLoop_cons_nil, h d (by simp)]
    simp only [ne_eq, not_true_eq_false, if_false]
    exact mainLoop_all_nil fs equalFold name dirs (fun dir hdir => h dir (by simp [hdir]))

/-- C7: the sequence returned by `findNonLegacy` is sorted in ascending byte-wise order,
and it is a permutation of the collected paths of the entries ending in `.md` of the
family directory that yielded the result: when a candidate directory can be listed, the
first entry of its listing that passes the test of `findNonLegacy` can be listed and
holds entries ending in `.md`, and the candidate directories tried before it contributed
nothing, the result is a permutation of the paths collected from that entry; when no
candidate directory contributes anything, the result is empty. -/
theorem findNonLegacy_sorted_perm (fs : FileSystem) (equalFold : GoString → GoString → Bool)
    (rootDir name : GoString) :
    (findNonLegacy fs equalFold rootDir name).Sorted strLe ∧
    (∀ dir ∈ candidateDirs rootDir, ∀ files file templates,
      fs.readDir dir = .ok files →
      files.find? (isFamilyDir equalFold name) = some file →
      fs.readDir (pathJoin [dir, file.name]) = .ok templates →
      templatePaths dir file.name templates ≠ [] →
      (∀ dir' ∈ (candidateDirs rootDir).takeWhile (fun d => d ≠ dir),
        dirYield fs equalFold name dir' = []) →
      (findNonLegacy fs equalFold rootDir name).Perm (templatePaths dir file.name templates)) ∧
    ((∀ dir ∈ candidateDirs rootDir, dirYield fs equalFold name dir = []) →
      findNonLegacy fs equalFold rootDir name = []) := by
  refine ⟨sortStrings_sorted _, ?_, ?_⟩
  · intro dir hdir files file templates h1 h2 h3 hne hbefore
    have hy : dirYield fs equalFold name dir = templatePaths dir file.name templates := by
      simp [dirYield, h1, filesYield, h2, h3]
    unfold findNonLegacy
    rw [mainLoop_first fs equalFold name dir _ hdir (by rw [hy]; exact hne) hbefore, hy]
    exact sortStrings_perm _
  · intro h
    unfold findNonLegacy
    rw [mainLoop_all_nil fs equalFold name _ h]
    rfl

/-- Witness for C7: in `docsTemplatesFS` the candidate directories `/repo/.github` and
`/repo` contribute nothing and the result is a permutation of the two templates of
`/repo/docs/ISSUE_TEMPLATE`; in `twoTemplatesFS` it is a permutation of the two
templates of `/repo/.github/ISSUE_TEMPLATE`. -/
theorem findNonLegacy_sorted_perm_witness :
    (findNonLegacy docsTemplatesFS asciiEqualFold (str "/repo") (str "issue_template")).Perm
      [str "/repo/docs/ISSUE_TEMPLATE/bug.md", str "/repo/docs/ISSUE_TEMPLATE/feature.md"] ∧
    (findNonLegacy twoTemplatesFS asciiEqualFold (str "/repo") (str "issue_template")).Perm
      [str "/repo/.github/ISSUE_TEMPLATE/a.md", str "/repo/.github/ISSUE_TEMPLATE/b.md"] :=
  ⟨(findNonLegacy_sorted_perm docsTemplatesFS asciiEqualFold (str "/repo")
      (str "issue_template")).2.1 (str "/repo/docs") (by decide)
      [⟨str "ISSUE_TEMPLATE", true⟩] ⟨str "ISSUE_TEMPLATE", true⟩
      [⟨str "bug.md", false⟩, ⟨str "feature.md", false⟩]
      (by decide) (by decide) (by decide) (by decide) (by decide),
   (findNonLegacy_sorted_perm twoTemplatesFS asciiEqualFold (str "/repo")
      (str "issue_template")).2.1 (str "/repo/.github") (by decide)
      [⟨str "ISSUE_TEMPLATE", true⟩] ⟨str "ISSUE_TEMPLATE", true⟩
      [⟨str "a.md", false⟩, ⟨str "b.md", false⟩, ⟨str "config.yml", false⟩]
      (by decide) (by decide) (by decide) (by decide) (by decide)⟩

/-- A directory that cannot be listed counts as one without entries: both finders return
the same result as on the file system in which it can be listed and is empty, and the
same result whatever error the listing reports. -/
theorem unreadable_as_empty (fs : FileSystem) (equalFold : GoString → GoString → Bool)
    (rootDir name dir : GoString) (err : ReadError) (h : fs.readDir dir = .error err) :
    findNonLegacy (fs.withDir dir (.ok [])) equalFold rootDir name
      = findNonLegacy fs equalFold rootDir name ∧
    findLegacy (fs.withDir dir (.ok [])) equalFold rootDir name
      = findLegacy fs equalFold rootDir name ∧
    ∀ err', findNonLegacy (fs.withDir dir (.error err')) equalFold rootDir name
        = findNonLegacy fs equalFold rootDir name ∧
      findLegacy (fs.withDir dir (.error err')) equalFold rootDir name
        = findLegacy fs equalFold rootDir name :=
  ⟨findNonLegacy_congr _ _ _ _ _ (entries_withDir fs dir err h _ (Or.inl rfl)),
   findLegacy_congr _ _ _ _ _ (entries_withDir fs dir err h _ (Or.inl rfl)),
   fun err' =>
    ⟨findNonLegacy_congr _ _ _ _ _ (entries_withDir fs dir err h _ (Or.inr ⟨err', rfl⟩)),
     findLegacy_congr _ _ _ _ _ (entries_withDir fs dir err h _ (Or.inr ⟨err', rfl⟩))⟩⟩

/-- The finders do not check that an entry taken for a template is a regular file: in
`templateNamedDirsFS` the unlistable directories `.github/ISSUE_TEMPLATE.md` and
`.github/ISSUE_TEMPLATE/x.md` are returned as templates, and are not when they do not
exist. -/
theorem template_named_directories :
    findLegacy templateNamedDirsFS asciiEqualFold (str "/repo") (str "ISSUE_TEMPLATE")
      = some (str "/repo/.github/ISSUE_TEMPLATE.md") ∧
    findLegacy (templateNamedDirsFS.removeDir (str "/repo/.github") (str "ISSUE_TEMPLATE.md"))
        asciiEqualFold (str "/repo") (str "ISSUE_TEMPLATE") = none ∧
    findNonLegacy templateNamedDirsFS asciiEqualFold (str "/repo") (str "ISSUE_TEMPLATE")
      = [str "/repo/.github/ISSUE_TEMPLATE/x.md"] ∧
    findNonLegacy (templateNamedDirsFS.removeDir (str "/repo/.github/ISSUE_TEMPLATE")
        (str "x.md")) asciiEqualFold (str "/repo") (str "ISSUE_TEMPLATE") = [] := by
  decide

/-- C10 as stated fails: in `emptyVariantFS` the candidate directory `/repo/.github` can
be listed and contains the directory `issue_template`, which can be listed, equals the
family name and holds `bug.md`; yet `findNonLegacy` returns the empty sequence, because
the directory `ISSUE_TEMPLATE`, which holds no template, precedes it in the listing. -/
theorem findNonLegacy_nonempty_counterexample :
    pathJoin [str "/repo", str ".github"] ∈ candidateDirs (str "/repo") ∧
    emptyVariantFS.readDir (pathJoin [str "/repo", str ".github"])
      = .ok [⟨str "ISSUE_TEMPLATE", true⟩, ⟨str "issue_template", true⟩] ∧
    isFamilyDir asciiEqualFold (str "issue_template") ⟨str "issue_template", true⟩ = true ∧
    emptyVariantFS.readDir (pathJoin [pathJoin [str "/repo", str ".github"], str "issue_template"])
      = .ok [⟨str "bug.md", false⟩] ∧
    isTemplate ⟨str "bug.md", false⟩ = true ∧
    findNonLegacy emptyVariantFS asciiEqualFold (str "/repo") (str "issue_template") = [] := by
  decide

/-- C10, amended: if some candidate directory can be listed, the first entry of its
listing that is a directory whose name equals the family name under case folding can be
listed, and that entry has at least one entry whose name ends in `.md`, then the sequence
returned by `findNonLegacy` is non-empty. -/
theorem findNonLegacy_nonempty (fs : FileSystem) (equalFold : GoString → GoString → Bool)
    (rootDir name dir : GoString) (files templates : List FileInfo) (file tf : FileInfo)
    (hdir : dir ∈ candidateDirs rootDir) (hfiles : fs.readDir dir = .ok files)
    (hfirst : files.find? (isFamilyDir equalFold name) = some file)
    (htemplates : fs.readDir (pathJoin [dir, file.name]) = .ok templates)
    (htf : tf ∈ templates) (hmd : isTemplate tf = true) :
    findNonLegacy fs equalFold rootDir name ≠ [] := by
  have hy : dirYield fs equalFold name dir ≠ [] := by
    simp only [dirYield, hfiles, filesYield, hfirst, htemplates, templatePaths, ne_eq,
      List.map_eq_nil_iff, List.filter_eq_nil_iff, not_forall]
    exact ⟨tf, htf, by simp [hmd]⟩
  have hmain := mainLoop_ne_nil fs equalFold rootDir name dir hdir hy
  intro hnil
  apply hmain
  have hperm := sortStrings_perm (mainLoop fs equalFold name (candidateDirs rootDir) [])
  unfold findNonLegacy at hnil
  rw [hnil] at hperm
  exact List.Perm.nil_eq hperm |>.symm

/-- Witness for C10 on the repository `twoTemplatesFS`, for the candidate directory
`/repo/docs`. -/
theorem findNonLegacy_nonempty_witness :
    findNonLegacy twoTemplatesFS asciiEqualFold (str "/repo") (str "issue_template") ≠ [] :=
  findNonLegacy_nonempty twoTemplatesFS asciiEqualFold (str "/repo") (str "issue_template")
    (str "/repo/docs") [⟨str "ISSUE_TEMPLATE", true⟩] [⟨str "c.md", false⟩]
    ⟨str "ISSUE_TEMPLATE", true⟩ ⟨str "c.md", false⟩
    (by decide) (by decide) (by decide) (by decide) (by decide) (by decide)

/-! ## The matches of `yamlPattern` -/

theorem drop_eq_cons_of_getElem? {cs : List Nat} {p b : Nat} (h : cs[p]? = some b) :
    cs.drop p = b :: cs.drop (p + 1) := by
  obtain ⟨hlt, hb⟩ := List.getElem?_eq_some_iff.mp h
  rw [List.drop_eq_getElem_cons hlt, hb]

theorem blankTail_of_none {cs : List Nat} {p : Nat} (h : cs[p]? = none) : blankTail cs p = 0 := by
  have : cs.drop p = [] := List.drop_eq_nil_of_le (List.getElem?_eq_none_iff.mp h)
  simp [blankTail, spaceRun, this, throughLastNewline]

theorem blankTail_of_not_space {cs : List Nat} {p b : Nat} (h : cs[p]? = some b)
    (hb : isSpace b = false) : blankTail cs p = 0 := by
  simp [blankTail, spaceRun, drop_eq_cons_of_getElem? h, List.takeWhile_cons, hb,
    throughLastNewline]

theorem blankTail_of_space {cs : List Nat} {p b : Nat} (h : cs[p]? = some b)
    (hb : isSpace b = true) :
    blankTail cs p
      = if blankTail cs (p + 1) ≠ 0 then blankTail cs (p + 1) + 1
        else if b = 10 then 1 else 0 := by
  simp [blankTail, spaceRun, drop_eq_cons_of_getElem? h, List.takeWhile_cons, hb,
    throughLastNewline]

theorem blankTail_ne_zero_of_newline {cs : List Nat} {p : Nat} (h : cs[p]? = some 10) :
    blankTail cs p ≠ 0 := by
  rw [blankTail_of_space h (by decide)]
  split <;> simp

theorem ends_space (cs : List Nat) (p : Nat) :
    ends cs .space p = if (cs[p]?).any isSpace then [p + 1] else [] := rfl

theorem ends_newline (cs : List Nat) (j : Nat) :
    ends cs (.seq (.opt (.byte 13)) (.byte 10)) j
      = (if cs[j]? = some 13 then (if cs[j + 1]? = some 10 then [j + 2] else []) else [])
        ++ (if cs[j]? = some 10 then [j + 1] else []) := by
  simp only [ends, List.flatMap_append, List.flatMap_cons, List.flatMap_nil, List.append_nil]
  by_cases h : cs[j]? = some 13 <;> simp [h]

theorem ends_newline_of_not_space {cs : List Nat} {j : Nat}
    (h : ∀ b, cs[j]? = some b → isSpace b = false) :
    ends cs (.seq (.opt (.byte 13)) (.byte 10)) j = [] := by
  rw [ends_newline]
  have h13 : cs[j]? ≠ some 13 := fun h' => by simpa [isSpace] using h 13 h'
  have h10 : cs[j]? ≠ some 10 := fun h' => by simpa [isSpace] using h 10 h'
  simp [h13, h10]

/-- The group `\s*\r?\n`, tried after the white space at offset `p`: it fails when the
white space has no line feed and otherwise ends right after the last one. -/
theorem star_space_newline (cs : List Nat) :
    ∀ fuel p, cs.length + 1 - p ≤ fuel →
      ((starEnds (ends cs .space) fuel p).flatMap
          (ends cs (.seq (.opt (.byte 13)) (.byte 10)))).head?
        = if blankTail cs p = 0 then none else some (p + blankTail cs p) := by
  intro fuel
  induction fuel with
  | zero =>
    intro p hp
    have hnone : cs[p]? = none := List.getElem?_eq_none_iff.mpr (by omega)
    have hg := @ends_newline_of_not_space cs p (by simp [hnone])
    simp [starEnds, hg, blankTail_of_none hnone]
  | succ fuel ih =>
    intro p hp
    cases hb : cs[p]? with
    | none =>
      have hg := @ends_newline_of_not_space cs p (by simp [hb])
      simp [starEnds, ends_space, hb, hg, blankTail_of_none hb]
    | some b =>
      by_cases hs : isSpace b = true
      · have hstar : starEnds (ends cs .space) (fuel + 1) p
            = starEnds (ends cs .space) fuel (p + 1) ++ [p] := by
          simp [starEnds, ends_space, hb, hs]
        rw [hstar, List.flatMap_append, List.head?_append, ih (p + 1) (by omega),
          blankTail_of_space hb hs]
        by_cases hk : blankTail cs (p + 1) = 0
        · have hnext : cs[p + 1]? ≠ some 10 := fun h' => blankTail_ne_zero_of_newline h' hk
          simp only [hk, if_true, ne_eq, not_true_eq_false, if_false, Option.none_or,
            List.flatMap_cons, List.flatMap_nil, List.append_nil, ends_newline, hb,
            Option.some.injEq, hnext]
          by_cases h10 : b = 10
          · subst h10
            simp
          · simp [h10]
        · simp only [hk, if_false, ne_eq, not_false_eq_true, if_true, Option.or]
          have : blankTail cs (p + 1) + 1 ≠ 0 := by omega
          simp only [this, if_false, Option.some.injEq]
          omega
      · have hs' : isSpace b = false := by simpa using hs
        have hg := @ends_newline_of_not_space cs p
          (by intro b' hb'; rw [hb] at hb'; cases hb'; exact hs')
        simp [starEnds, ends_space, hb, hs', hg, blankTail_of_not_space hb hs']

theorem ends_yamlBlank_head (cs : List Nat) (p : Nat) :
    (ends cs yamlBlank p).head? = some (p + blankTail cs p) := by
  have h := star_space_newline cs (cs.length + 1 - p) p (le_refl _)
  have e1 : ends cs yamlBlank p
      = (starEnds (ends cs .space) (cs.length + 1 - p) p).flatMap
          (ends cs (.seq (.opt (.byte 13)) (.byte 10))) ++ [p] := rfl
  rw [e1, List.head?_append, h]
  by_cases hk : blankTail cs p = 0 <;> simp [hk]

theorem ends_yamlPattern (cs : List Nat) (i : Nat) :
    ends cs yamlPattern i
      = if i = 0 ∨ cs[i - 1]? = some 10 then
          if cs[i]? = some 45 then
            if cs[i + 1]? = some 45 then
              if cs[i + 2]? = some 45 then
                (if cs[i + 3]? = some 13 then
                  (if cs[i + 4]? = some 10 then ends cs yamlBlank (i + 5) else [])
                 else [])
                ++ (if cs[i + 3]? = some 10 then ends cs yamlBlank (i + 4) else [])
              else []
            else []
          else []
        else [] := by
  have e1 : ends cs yamlPattern i
      = (ends cs .bol i).flatMap fun j₀ => (ends cs (.byte 45) j₀).flatMap fun j₁ =>
          (ends cs (.byte 45) j₁).flatMap fun j₂ => (ends cs (.byte 45) j₂).flatMap fun j₃ =>
            (ends cs (.opt (.byte 13)) j₃).flatMap fun j₄ =>
              (ends cs (.byte 10) j₄).flatMap (ends cs yamlBlank) := rfl
  rw [e1]
  simp only [ends]
  by_cases h0 : i = 0 ∨ cs[i - 1]? = some 10
  · by_cases h1 : cs[i]? = some 45
    · by_cases h2 : cs[i + 1]? = some 45
      · by_cases h3 : cs[i + 2]? = some 45
        · by_cases h4 : cs[i + 3]? = some 13
          · by_cases h5 : cs[i + 4]? = some 10
            · simp [h0, h1, h2, h3, h4, h5]
            · simp [h0, h1, h2, h3, h4, h5]
          · by_cases h6 : cs[i + 3]? = some 10
            · simp [h0, h1, h2, h3, h4, h6]
            · simp [h0, h1, h2, h3, h4, h6]
        · simp [h0, h1, h2, h3]
      · simp [h0, h1, h2]
    · simp [h0, h1]
  · simp [h0]

/-- The pattern matches at offset `i` exactly when a delimiter line starts there, and
the match then ends after the blank or white-space-only lines that follow the line. -/
theorem matchAt_yamlPattern (cs : List Nat) (i : Nat) :
    matchAt yamlPattern cs i = if isDelimiterAt cs i then some (matchEnd cs i) else none := by
  unfold matchAt
  rw [ends_yamlPattern]
  by_cases h0 : i = 0 ∨ cs[i - 1]? = some 10
  · by_cases h1 : cs[i]? = some 45
    · by_cases h2 : cs[i + 1]? = some 45
      · by_cases h3 : cs[i + 2]? = some 45
        · by_cases h4 : cs[i + 3]? = some 13
          · by_cases h5 : cs[i + 4]? = some 10
            · simp [isDelimiterAt, matchEnd, lineLength, h0, h1, h2, h3, h4, h5,
                ends_yamlBlank_head]
            · simp [isDelimiterAt, h0, h1, h2, h3, h4, h5]
          · by_cases h6 : cs[i + 3]? = some 10
            · simp [isDelimiterAt, matchEnd, lineLength, h0, h1, h2, h3, h4, h6,
                ends_yamlBlank_head]
            · simp [isDelimiterAt, h0, h1, h2, h3, h4, h6]
        · simp [isDelimiterAt, h0, h1, h2, h3]
      · simp [isDelimiterAt, h0, h1, h2]
    · simp [isDelimiterAt, h0, h1]
  · have h0' : ¬ i = 0 ∧ ¬ cs[i - 1]? = some 10 := not_or.mp h0
    simp [isDelimiterAt, h0'.1, h0'.2]

theorem searchFrom_yamlPattern (cs : List Nat) :
    ∀ n pos, searchFrom yamlPattern cs n pos
      = (((List.range' pos n).filter (isDelimiterAt cs)).head?).map
          (fun s => (s, matchEnd cs s)) := by
  intro n
  induction n with
  | zero => intro pos; rfl
  | succ n ih =>
    intro pos
    rw [searchFrom, matchAt_yamlPattern, List.range'_succ, List.filter_cons]
    by_cases h : isDelimiterAt cs pos = true
    · simp [h]
    · simp [h, ih]

theorem filter_range'_cons (p : Nat → Bool) :
    ∀ n pos s rest, (List.range' pos n).filter p = s :: rest →
      pos ≤ s ∧ s < pos + n ∧ p s = true ∧
      (List.range' (s + 1) (pos + n - (s + 1))).filter p = rest := by
  intro n
  induction n with
  | zero => intro pos s rest h; simp at h
  | succ n ih =>
    intro pos s rest h
    rw [List.range'_succ, List.filter_cons] at h
    by_cases hp : p pos = true
    · rw [if_pos hp] at h
      injection h with h1 h2
      subst h1
      refine ⟨le_refl _, by omega, hp, ?_⟩
      have : pos + (n + 1) - (pos + 1) = n := by omega
      rw [this]
      exact h2
    · rw [if_neg hp] at h
      obtain ⟨h1, h2, h3, h4⟩ := ih (pos + 1) s rest h
      refine ⟨by omega, by omega, h3, ?_⟩
      have : pos + (n + 1) - (s + 1) = pos + 1 + n - (s + 1) := by omega
      rw [this]
      exact h4

theorem filter_range'_skip (p : Nat → Bool) :
    ∀ m a b, a ≤ b → b ≤ a + m → (∀ j, a ≤ j → j < b → p j = false) →
      (List.range' a m).filter p = (List.range' b (a + m - b)).filter p := by
  intro m
  induction m with
  | zero =>
    intro a b hab hb _
    have : b = a := by omega
    subst this
    simp
  | succ m ih =>
    intro a b hab hb hp
    by_cases hba : b = a
    · subst hba
      have : b + (m + 1) - b = m + 1 := by omega
      rw [this]
    · rw [List.range'_succ, List.filter_cons, hp a (le_refl _) (by omega)]
      simp only [Bool.false_eq_true, if_false]
      rw [ih (a + 1) b (by omega) (by omega) (fun j h1 h2 => hp j (by omega) h2)]
      have : a + 1 + m - b = a + (m + 1) - b := by omega
      rw [this]

theorem isDelimiterAt_lt_length {cs : List Nat} {i : Nat} (h : isDelimiterAt cs i = true) :
    i + lineLength cs i ≤ cs.length := by
  simp only [isDelimiterAt, Bool.and_eq_true, Bool.or_eq_true, beq_iff_eq] at h
  obtain ⟨-, h3 | ⟨h3, h4⟩⟩ := h
  · have := (List.getElem?_eq_some_iff.mp h3).1
    simp only [lineLength, h3]
    simp
    omega
  · have := (List.getElem?_eq_some_iff.mp h4).1
    simp only [lineLength, h3]
    simp
    omega

theorem isDelimiterAt_length (cs : List Nat) : isDelimiterAt cs cs.length = false := by
  have : cs[cs.length]? = none := List.getElem?_eq_none_iff.mpr (le_refl _)
  simp [isDelimiterAt, this]

theorem throughLastNewline_le (bs : List Nat) : throughLastNewline bs ≤ bs.length := by
  induction bs with
  | nil => simp [throughLastNewline]
  | cons b bs ih =>
    simp only [throughLastNewline, List.length_cons]
    split
    · omega
    · split <;> omega

theorem spaceRun_getElem? (cs : List Nat) (p k : Nat) (hk : k < (spaceRun cs p).length) :
    ∃ b, cs[p + k]? = some b ∧ isSpace b = true := by
  have hsplit : cs.drop p = spaceRun cs p ++ (cs.drop p).dropWhile isSpace :=
    (List.takeWhile_append_dropWhile isSpace (cs.drop p)).symm
  have hget : (cs.drop p)[k]? = (spaceRun cs p)[k]? := by
    rw [hsplit, List.getElem?_append_left hk]
  rw [List.getElem?_drop] at hget
  refine ⟨(spaceRun cs p)[k], ?_, ?_⟩
  · rw [hget, List.getElem?_eq_getElem hk]
  · exact List.mem_takeWhile_imp (List.getElem_mem hk)

theorem blankTail_le_spaceRun (cs : List Nat) (p : Nat) :
    blankTail cs p ≤ (spaceRun cs p).length :=
  throughLastNewline_le _

theorem spaceRun_length_le (cs : List Nat) (p : Nat) :
    p + (spaceRun cs p).length ≤ max p cs.length := by
  have h1 : (spaceRun cs p).length ≤ (cs.drop p).length := by
    have hsplit : cs.drop p = spaceRun cs p ++ (cs.drop p).dropWhile isSpace :=
      (List.takeWhile_append_dropWhile isSpace (cs.drop p)).symm
    have := congrArg List.length hsplit
    rw [List.length_append] at this
    omega
  rw [List.length_drop] at h1
  omega

theorem matchEnd_bounds {cs : List Nat} {i : Nat} (h : isDelimiterAt cs i = true) :
    i + 4 ≤ matchEnd cs i ∧ matchEnd cs i ≤ cs.length := by
  have h1 := isDelimiterAt_lt_length h
  have h2 := blankTail_le_spaceRun cs (i + lineLength cs i)
  have h3 := spaceRun_length_le cs (i + lineLength cs i)
  have h4 : 4 ≤ lineLength cs i := by
    unfold lineLength
    split <;> omega
  unfold matchEnd
  constructor
  · omega
  · have : max (i + lineLength cs i) cs.length = cs.length := max_eq_right h1
    omega

/-- No delimiter line starts inside a match of the pattern. -/
theorem isDelimiterAt_inside {cs : List Nat} {i j : Nat} (h : isDelimiterAt cs i = true)
    (h1 : i < j) (h2 : j < matchEnd cs i) : isDelimiterAt cs j = false := by
  by_cases hj : j < i + lineLength cs i
  · have hd := h
    simp only [isDelimiterAt, Bool.and_eq_true, Bool.or_eq_true, beq_iff_eq] at hd
    obtain ⟨⟨-, ⟨ha, hb⟩, hc⟩, hterm⟩ := hd
    have hprev : cs[j - 1]? ≠ some 10 := by
      by_cases hcr : cs[i + 3]? = some 13
      · have hl : lineLength cs i = 5 := by simp [lineLength, hcr]
        have : j - 1 = i ∨ j - 1 = i + 1 ∨ j - 1 = i + 2 ∨ j - 1 = i + 3 := by omega
        rcases this with e | e | e | e <;> rw [e] <;> simp [ha, hb, hc, hcr]
      · have hl : lineLength cs i = 4 := by simp [lineLength, hcr]
        have : j - 1 = i ∨ j - 1 = i + 1 ∨ j - 1 = i + 2 := by omega
        rcases this with e | e | e <;> rw [e] <;> simp [ha, hb, hc]
    have hj0 : j ≠ 0 := by omega
    simp [isDelimiterAt, hj0, hprev]
  · have hk : j - (i + lineLength cs i) < (spaceRun cs (i + lineLength cs i)).length := by
      have := blankTail_le_spaceRun cs (i + lineLength cs i)
      unfold matchEnd at h2
      omega
    obtain ⟨b, hb, hs⟩ := spaceRun_getElem? cs _ _ hk
    have hidx : i + lineLength cs i + (j - (i + lineLength cs i)) = j := by omega
    rw [hidx] at hb
    have h45 : b ≠ 45 := by
      intro e
      rw [e] at hs
      exact absurd hs (by decide)
    simp [isDelimiterAt, hb, h45]

theorem allMatches_zero (r : Regex) (cs : List Nat) (fuel pos : Nat) (prev : Option Nat) :
    allMatches r cs fuel 0 pos prev = [] := by
  cases fuel <;> simp [allMatches]

theorem delimiterLines_eq (cs : List Nat) :
    delimiterLines cs = (List.range' 0 (cs.length + 1)).filter (isDelimiterAt cs) := by
  have h : List.range' 0 (cs.length + 1) = List.range' 0 cs.length ++ [cs.length] := by
    rw [List.range'_concat]
    simp
  rw [h, List.filter_append]
  simp [delimiterLines, List.range_eq_range', isDelimiterAt_length]

/-- The first two matches of the pattern start at the first two delimiter lines. -/
theorem findAllIndex_yamlPattern (cs : List Nat) :
    findAllIndex yamlPattern cs 2
      = ((delimiterLines cs).take 2).map (fun s => (s, matchEnd cs s)) := by
  unfold findAllIndex
  rw [allMatches]
  have hsearch : searchFrom yamlPattern cs (cs.length + 1 - 0) 0
      = ((delimiterLines cs).head?).map (fun s => (s, matchEnd cs s)) := by
    rw [searchFrom_yamlPattern, delimiterLines_eq]
    rfl
  rw [hsearch]
  cases hD : delimiterLines cs with
  | nil => simp
  | cons s rest =>
    have hD' := hD
    rw [delimiterLines_eq] at hD'
    obtain ⟨-, -, hs, hrest⟩ := filter_range'_cons _ _ _ _ _ hD'
    obtain ⟨hs4, hslen⟩ := matchEnd_bounds hs
    have hskip := filter_range'_skip (isDelimiterAt cs) (0 + (cs.length + 1) - (s + 1))
      (s + 1) (matchEnd cs s) (by omega) (by omega)
      (fun j h1 h2 => isDelimiterAt_inside hs (by omega) h2)
    rw [hrest] at hskip
    have harith : s + 1 + (0 + (cs.length + 1) - (s + 1)) - matchEnd cs s
        = cs.length + 1 - matchEnd cs s := by omega
    rw [harith] at hskip
    have hne : matchEnd cs s ≠ 0 := by omega
    have hnlt : ¬ cs.length < matchEnd cs s := by omega
    simp only [List.head?_cons, Option.map_some', OfNat.ofNat_ne_zero, not_lt_zero', or_self,
      if_false, hne]
    rw [allMatches]
    simp only [one_ne_zero, hnlt, or_self, if_false]
    rw [searchFrom_yamlPattern, ← hskip]
    cases hrest' : rest with
    | nil => simp
    | cons q rest' =>
      have hq : matchEnd cs s ≤ q ∧ isDelimiterAt cs q = true := by
        rw [hrest'] at hskip
        obtain ⟨h1, -, h3, -⟩ := filter_range'_cons _ _ _ _ _ hskip.symm
        exact ⟨h1, h3⟩
      obtain ⟨hq4, -⟩ := matchEnd_bounds hq.2
      have hne' : matchEnd cs q ≠ matchEnd cs s := by omega
      simp [hne', allMatches_zero]

theorem detectFrontmatter_eq (cs : List Nat) :
    detectFrontmatter cs
      = match delimiterLines cs with
        | s :: q :: _ => ((s : Int), (matchEnd cs q : Int))
        | _ => (-1, -1) := by
  unfold detectFrontmatter
  rw [findAllIndex_yamlPattern]
  cases delimiterLines cs with
  | nil => rfl
  | cons s rest =>
    cases rest with
    | nil => rfl
    | cons q rest' => rfl

theorem throughLastNewline_newline :
    ∀ bs : List Nat, throughLastNewline bs ≠ 0 → bs[throughLastNewline bs - 1]? = some 10
  | [], h => absurd rfl h
  | b :: bs, h => by
    simp only [throughLastNewline] at h ⊢
    by_cases hk : throughLastNewline bs = 0
    · by_cases hb : b = 10
      · simp [hk, hb]
      · simp [hk, hb] at h
    · have ih := throughLastNewline_newline bs hk
      obtain ⟨n, hn⟩ := Nat.exists_eq_succ_of_ne_zero hk
      simp only [hk, ne_eq, not_false_eq_true, if_true, Nat.add_sub_cancel]
      rw [hn] at ih ⊢
      simpa using ih

theorem throughLastNewline_last :
    ∀ (bs : List Nat) (j : Nat), throughLastNewline bs ≤ j → bs[j]? ≠ some 10
  | [], j, _ => by simp
  | b :: bs, j, h => by
    simp only [throughLastNewline] at h
    cases j with
    | zero =>
      by_cases hk : throughLastNewline bs = 0
      · by_cases hb : b = 10
        · simp [hk, hb] at h
        · simp [hb]
      · simp [hk] at h
    | succ j =>
      have hle : throughLastNewline bs ≤ j := by
        by_cases hk : throughLastNewline bs = 0
        · omega
        · simp only [hk, ne_eq, not_false_eq_true, if_true] at h
          omega
      simpa using throughLastNewline_last bs j hle

theorem spaceRun_getElem?_eq (cs : List Nat) (p k : Nat) (hk : k < (spaceRun cs p).length) :
    cs[p + k]? = (spaceRun cs p)[k]? := by
  have hsplit : cs.drop p = spaceRun cs p ++ (cs.drop p).dropWhile isSpace :=
    (List.takeWhile_append_dropWhile isSpace (cs.drop p)).symm
  have hget : (cs.drop p)[k]? = (spaceRun cs p)[k]? := by
    rw [hsplit, List.getElem?_append_left hk]
  rw [List.getElem?_drop] at hget
  exact hget

/-- The bytes counted by `blankTail` are white space, the last of them is a line feed,
and the white space that follows them holds no further line feed. -/
theorem blankTail_spec (cs : List Nat) (p : Nat) :
    (∀ k, k < blankTail cs p → ∃ b, cs[p + k]? = some b ∧ isSpace b = true) ∧
    (blankTail cs p ≠ 0 → cs[p + blankTail cs p - 1]? = some 10) ∧
    (∀ k, blankTail cs p ≤ k → k < (spaceRun cs p).length → cs[p + k]? ≠ some 10) := by
  have hle := blankTail_le_spaceRun cs p
  refine ⟨fun k hk => spaceRun_getElem? cs p k (by omega), ?_, ?_⟩
  · intro h
    have h1 := throughLastNewline_newline (spaceRun cs p) h
    have h2 := spaceRun_getElem?_eq cs p (blankTail cs p - 1) (by omega)
    have h3 : p + blankTail cs p - 1 = p + (blankTail cs p - 1) := by omega
    rw [h3, h2]
    exact h1
  · intro k h1 h2
    rw [spaceRun_getElem?_eq cs p k h2]
    exact throughLastNewline_last _ _ h1

/-! ## The front-matter detector: properties -/

/-- C6 as stated fails: in `oneBlankLineTemplate` the delimiter lines start at the
offsets 0 and 21 and the second one, `---` with its line feed, ends at offset 25; the
end offset reported by `detectFrontmatter` is 26, after the blank line that follows,
and not the offset immediately after the end of the second delimiter line. -/
theorem delimiter_end_counterexample :
    delimiterLines oneBlankLineTemplate = [0, 21] ∧
    lineLength oneBlankLineTemplate 21 = 4 ∧
    (oneBlankLineTemplate.drop 21).take 4 = str "---\n" ∧
    detectFrontmatter oneBlankLineTemplate = (0, 26) ∧
    detectFrontmatter oneBlankLineTemplate ≠ (0, 21 + 4) := by
  decide

/-- C6, amended: the pattern matches at an offset exactly when a delimiter line (`---`
terminated by a line feed or a carriage return and a line feed) starts there;
`detectFrontmatter` returns the sentinel `(-1, -1)` when the text has fewer than two
delimiter lines, in particular when it has only one; when it has at least two, it
returns `(s, e)` with `s` the start of the first delimiter line and `e` the offset
immediately after the second delimiter line and the white space that follows it up to
and including the last line feed of that white space (the blank or white-space-only
lines after the line; `e` is immediately after the line when there is none), and
`0 ≤ s < e ≤ len(cs)`. -/
theorem detectFrontmatter_spec (cs : List Nat) :
    (∀ i, (matchAt yamlPattern cs i).isSome = isDelimiterAt cs i) ∧
    ((delimiterLines cs).length < 2 → detectFrontmatter cs = (-1, -1)) ∧
    (∀ s, delimiterLines cs = [s] → detectFrontmatter cs = (-1, -1)) ∧
    (∀ s q rest, delimiterLines cs = s :: q :: rest →
      findAllIndex yamlPattern cs 2
        = [(s, s + lineLength cs s + blankTail cs (s + lineLength cs s)),
           (q, q + lineLength cs q + blankTail cs (q + lineLength cs q))] ∧
      detectFrontmatter cs
        = ((s : Int), ((q + lineLength cs q + blankTail cs (q + lineLength cs q) : Nat) : Int)) ∧
      (0 : Int) ≤ s ∧ s < q ∧
      s < q + lineLength cs q + blankTail cs (q + lineLength cs q) ∧
      q + lineLength cs q + blankTail cs (q + lineLength cs q) ≤ cs.length ∧
      (lineLength cs q = 4 ∨ lineLength cs q = 5) ∧
      (∀ k, k < blankTail cs (q + lineLength cs q) →
        ∃ b, cs[q + lineLength cs q + k]? = some b ∧ isSpace b = true) ∧
      (blankTail cs (q + lineLength cs q) ≠ 0 →
        cs[q + lineLength cs q + blankTail cs (q + lineLength cs q) - 1]? = some 10) ∧
      (∀ k, blankTail cs (q + lineLength cs q) ≤ k →
        k < (spaceRun cs (q + lineLength cs q)).length →
        cs[q + lineLength cs q + k]? ≠ some 10)) := by
  refine ⟨?_, ?_, ?_, ?_⟩
  · intro i
    rw [matchAt_yamlPattern]
    cases isDelimiterAt cs i <;> rfl
  · intro h
    rw [detectFrontmatter_eq]
    cases hD : delimiterLines cs with
    | nil => rfl
    | cons s rest =>
      cases rest with
      | nil => rfl
      | cons q rest' =>
        rw [hD] at h
        simp only [List.length_cons] at h
        omega
  · intro s h
    rw [detectFrontmatter_eq, h]
  · intro s q rest h
    have hq : isDelimiterAt cs q = true :=
      (List.mem_filter.mp (show q ∈ delimiterLines cs by simp [h])).2
    have hsq : s < q := by
      have hsorted : (delimiterLines cs).Pairwise (fun a b => a < b) :=
        (List.pairwise_lt_range cs.length).filter _
      rw [h] at hsorted
      exact (List.pairwise_cons.mp hsorted).1 q (by simp)
    obtain ⟨-, hqlen⟩ := matchEnd_bounds hq
    obtain ⟨h1, h2, h3⟩ := blankTail_spec cs (q + lineLength cs q)
    refine ⟨?_, ?_, Int.natCast_nonneg s, hsq, by omega, hqlen, ?_, h1, h2, h3⟩
    · rw [findAllIndex_yamlPattern, h]
      rfl
    · rw [detectFrontmatter_eq, h]
      rfl
    · unfold lineLength
      split
      · exact Or.inr rfl
      · exact Or.inl rfl

/-- Witness for C6: a text with a single delimiter line, and `oneBlankLineTemplate`,
whose delimiter lines start at offsets 0 and 21 and whose front-matter ends at offset
26, after the blank line. -/
theorem detectFrontmatter_spec_witness :
    detectFrontmatter (str "---\nname: Bug Report\n") = (-1, -1) ∧
    findAllIndex yamlPattern oneBlankLineTemplate 2 = [(0, 4), (21, 26)] ∧
    detectFrontmatter oneBlankLineTemplate = (0, 26) :=
  have h := (detectFrontmatter_spec oneBlankLineTemplate).2.2.2 0 21 [] (by decide)
  ⟨(detectFrontmatter_spec (str "---\nname: Bug Report\n")).2.1 (by decide),
   h.1.trans (by decide), h.2.1.trans (by decide)⟩

/-- C9 as stated fails: in `blankLinesTemplate` the closing delimiter line occupies the
offsets 12 to 15 and is followed by two blank lines; the end offset reported by
`detectFrontmatter` is 18, neither right after the closing line (16) nor right after
the single blank line that follows it (17), and `extractContents` removes both blank
lines from the body. -/
theorem blank_lines_counterexample :
    delimiterLines blankLinesTemplate = [0, 12] ∧
    lineLength blankLinesTemplate 12 = 4 ∧
    blankLinesTemplate.drop 16 = str "\n\nBody\n" ∧
    detectFrontmatter blankLinesTemplate = (0, 18) ∧
    (18 : Int) ≠ 12 + 4 ∧ (18 : Int) ≠ 12 + 4 + 1 ∧
    extractContents blankLinesFS (str "t.md") = str "Body\n" := by
  decide

/-- C9, amended: a match of the pattern consists of the `---` line (with its optional
carriage return and its line feed) followed by the white space after it up to and
including the last line feed of that white space, that is by all the blank or
white-space-only lines that directly follow the line, however many; so the end offset
reported by `detectFrontmatter`, and therefore the start of the content returned by
`extractContents`, lies immediately after the last of the blank or white-space-only
lines that follow the closing `---` line, and immediately after that line when none
follows. -/
theorem detectFrontmatter_blank_lines (cs : List Nat) (s q : Nat) (rest : List Nat)
    (h : delimiterLines cs = s :: q :: rest) :
    matchAt yamlPattern cs q
      = some (q + lineLength cs q + blankTail cs (q + lineLength cs q)) ∧
    detectFrontmatter cs
      = ((s : Int), ((q + lineLength cs q + blankTail cs (q + lineLength cs q) : Nat) : Int)) ∧
    (∀ k, k < blankTail cs (q + lineLength cs q) →
      ∃ b, cs[q + lineLength cs q + k]? = some b ∧ isSpace b = true) ∧
    (blankTail cs (q + lineLength cs q) ≠ 0 →
      cs[q + lineLength cs q + blankTail cs (q + lineLength cs q) - 1]? = some 10) ∧
    (∀ k, blankTail cs (q + lineLength cs q) ≤ k →
      k < (spaceRun cs (q + lineLength cs q)).length →
      cs[q + lineLength cs q + k]? ≠ some 10) ∧
    (∀ (fs : FileSystem) (filePath : GoString), fs.readFile filePath = .ok cs → s = 0 →
      extractContents fs filePath
        = cs.drop (q + lineLength cs q + blankTail cs (q + lineLength cs q))) := by
  have hq : isDelimiterAt cs q = true :=
    (List.mem_filter.mp (show q ∈ delimiterLines cs by simp [h])).2
  have hd : detectFrontmatter cs = ((s : Int), (matchEnd cs q : Int)) := by
    rw [detectFrontmatter_eq, h]
  obtain ⟨h1, h2, h3⟩ := blankTail_spec cs (q + lineLength cs q)
  refine ⟨?_, hd, h1, h2, h3, ?_⟩
  · rw [matchAt_yamlPattern, hq]
    rfl
  · intro fs filePath hread hs
    subst hs
    have htoNat : ((matchEnd cs q : Nat) : Int).toNat = matchEnd cs q := Int.toNat_natCast _
    simp only [extractContents, hread, hd, Nat.cast_zero, if_true, htoNat]
    rfl

/-- Witness for C9 on `blankLinesTemplate`: the match at the closing delimiter line ends
at offset 18, after both blank lines. -/
theorem detectFrontmatter_blank_lines_witness :
    matchAt yamlPattern blankLinesTemplate 12 = some 18 ∧
    detectFrontmatter blankLinesTemplate = (0, 18) ∧
    extractContents blankLinesFS (str "t.md") = blankLinesTemplate.drop 18 :=
  have h := detectFrontmatter_blank_lines blankLinesTemplate 0 12 [] (by decide)
  ⟨h.1.trans (by decide), h.2.1.trans (by decide),
   (h.2.2.2.2.2 blankLinesFS (str "t.md") (by decide) rfl).trans (by decide)⟩

example : detectFrontmatter (str "---\nname: Bug Report\n---\nBody text here\n") = (0, 25) := by decide
example : pathJoin [str "/repo", str ".github"] = str "/repo/.github" := by decide
example : pathJoin [str "", str ".github"] = str ".github" := by decide
example : pathJoin [str "a/../..", str "x", str "b.md"] = str "../x/b.md" := by decide
example : pathJoin [str "/a/../..//", str "x", str "b.md"] = str "/x/b.md" := by decide
example : pathBase (str "dir/bug_report.md") = str "bug_report.md" := by decide
example : pathBase (str "///") = str "/" := by decide
example : sortStrings [str "b", str "a", str "B", str "ab"] = [str "B", str "a", str "ab", str "b"] := by decide
example : asciiEqualFold (str "ISSUE_TEMPLATE") (str "issue_template") = true := by decide

end GithubTemplate
